import Mathlib

/-!
# Verification of the `VirtualScrollView` core (`src/assets/vscrollview/VScrollView.ts`)

Shallow embedding of the windowing, recycling, gesture and size-table logic of
the virtual scroll view.  Scalar quantities (positions, sizes, offsets, time)
are modelled as rationals `ℚ`; item and slot indices as naturals; the JS
`(l + r) >> 1` on non-negative operands is floor division by 2.
-/

namespace VScroll

/-- The top-level helper `clamp(value, min, max) = Math.max(min, Math.min(max, value))`. -/
def clampQ (value lo hi : ℚ) : ℚ := max lo (min hi value)

/-- JS `Math.round`: rounds half toward positive infinity. -/
def jsRound (x : ℚ) : ℚ := ((⌊x + 1/2⌋ : ℤ) : ℚ)

/-- Accumulation loop of `_buildPrefixSum`: for each item size, emit the running
accumulator as that item's start position, then advance it by the size plus the
main-axis spacing (`this._prefixPositions[i] = acc; acc += this._itemSizes[i] + this.spacing`). -/
def buildPrefixAux (spacing : ℚ) : List ℚ → ℚ → List ℚ
  | [], _ => []
  | s :: rest, acc => acc :: buildPrefixAux spacing rest (acc + s + spacing)

/-- The `_prefixPositions` array as built by `_buildPrefixSum` from `_itemSizes`. -/
def buildPrefixPositions (sizes : List ℚ) (spacing : ℚ) : List ℚ :=
  buildPrefixAux spacing sizes 0

/-- The `_contentSize` set by `_buildPrefixSum`: the final accumulator minus one
trailing spacing, floored at 0. -/
def contentSizeOf (sizes : List ℚ) (spacing : ℚ) : ℚ :=
  max ((sizes.map (· + spacing)).sum - spacing) 0

/-- The binary-search loop of `_posToFirstIndex`.  `l`, `r`, `ans` mirror the
source variables (`ans` starts at the array length); the JS `(l + r) >> 1` on
the non-negative operands reached from the entry point is floor division by 2.
The loop narrows on `_prefixPositions[m] > pos`. -/
def bsearchGo (ps : List ℚ) (pos : ℚ) (l r ans : ℤ) : ℤ :=
  if l ≤ r then
    let m := (l + r) / 2
    if pos < ps.getD m.toNat 0 then bsearchGo ps pos l (m - 1) m
    else bsearchGo ps pos (m + 1) r ans
  else ans
termination_by (r + 1 - l).toNat
decreasing_by all_goals (simp_wf; omega)

/-- `_posToFirstIndex(pos)`: 0 for `pos ≤ 0`, otherwise `Math.max(0, ans - 1)`
where `ans` is the binary-search result over `_prefixPositions`. -/
def posToFirstIndex (ps : List ℚ) (pos : ℚ) : ℕ :=
  if pos ≤ 0 then 0
  else (max 0 (bsearchGo ps pos 0 ((ps.length : ℤ) - 1) (ps.length : ℤ) - 1)).toNat

/-- The scan loop of `_calcVisibleRange`: starting from index `e`, advance while
the start position at the index is `< endPos`
(`while (end < n) { if (p[end] >= endPos) break; end++ }`). -/
def scanEnd (ps : List ℚ) (endPos : ℚ) (e : ℕ) : ℕ :=
  if e < ps.length then
    if endPos ≤ ps.getD e 0 then e else scanEnd ps endPos (e + 1)
  else e
termination_by ps.length - e
decreasing_by simp_wf; omega

/-- `_calcVisibleRange(scrollPos)` over a given `_prefixPositions` array,
viewport main size and `buffer`.  `Math.max(0, start - buffer)` is the
truncated natural subtraction. -/
def calcVisibleRange (ps : List ℚ) (viewport : ℚ) (buffer : ℕ) (scrollPos : ℚ) : ℕ × ℕ :=
  if ps.length = 0 then (0, 0)
  else
    let first := posToFirstIndex ps scrollPos
    let endIdx := scanEnd ps (scrollPos + viewport) first
    (first - buffer, min ps.length (endIdx + buffer))

/-- Specification-side: the least index whose entry is strictly greater than
`pos`, or the list length when there is none. -/
def upperIdx (pos : ℚ) : List ℚ → ℕ
  | [] => 0
  | x :: xs => if pos < x then 0 else upperIdx pos xs + 1

/-- Specification-side start position of item `i`: the sum of the first `i`
item sizes, each augmented by the spacing. -/
def startPos (sizes : List ℚ) (spacing : ℚ) (i : ℕ) : ℚ :=
  ((sizes.take i).map (· + spacing)).sum

/-- Abstract display state of one slot: bound to (rendering) an item index,
or deactivated (`node.active = false`). -/
inductive SlotState
  | bound (item : ℕ)
  | inactive
deriving DecidableEq

/-- The per-slot effect of the body of `_layoutSlots` (and of the rebinding
inside `_updateVisible`): slot `s` renders item `first + s` when that index is
below `totalCount` (`_layoutSingleSlot`), and is deactivated otherwise. -/
def bindSpec (total first s : ℕ) : SlotState :=
  if first + s < total then SlotState.bound (first + s) else SlotState.inactive

/-- `_layoutSlots(firstIndex, _)`: every slot `s` in `[0, _slots)` is rebound
to item `firstIndex + s`, or deactivated past the end of the data. -/
def layoutSlotsAll (total first : ℕ) (states : List SlotState) : List SlotState :=
  states.mapIdx fun s _ => bindSpec total first s

/-- Forward rotation of the slot arrays for a positive shift `d`
(`splice(0, d)` followed by `push(...moved)`). -/
def rotateFwd {α : Type} (l : List α) (d : ℕ) : List α := l.drop d ++ l.take d

/-- Backward rotation of the slot arrays for a negative shift of magnitude `d`
(`splice(length - d, d)` followed by `unshift(...moved)`). -/
def rotateBwd {α : Type} (l : List α) (d : ℕ) : List α :=
  l.drop (l.length - d) ++ l.take (l.length - d)

/-- The rebinding loop of the incremental path of `_updateVisible`: starting
at slot `lo`, rebinds `cnt` consecutive slots to their items under the new
first index (deactivating slots whose item index is `≥ totalCount`). -/
def bindRange (total first : ℕ) (states : List SlotState) (lo : ℕ) : ℕ → List SlotState
  | 0 => states
  | n + 1 => bindRange total first (states.set lo (bindSpec total first lo)) (lo + 1) n

/-- `_updateVisible` from the point where `newFirst` has been computed, acting
on the window state `(slotFirstIndex, slot nodes, slot display states)`.
`force` takes the full-relayout path; otherwise a zero shift returns
unchanged, a shift of magnitude `≥ _slots` falls back to full relayout, and a
partial shift rotates the slot arrays (`_slotNodes`, and the display states in
step) and rebinds only the newly exposed slots. -/
def updateVisibleFrom (total newFirst : ℕ) (force : Bool)
    (first : ℕ) (nodes : List ℕ) (states : List SlotState) :
    ℕ × List ℕ × List SlotState :=
  let S := states.length
  if force then (newFirst, nodes, layoutSlotsAll total newFirst states)
  else if newFirst = first then (first, nodes, states)
  else if ((newFirst : ℤ) - (first : ℤ)).natAbs ≥ S then
    (newFirst, nodes, layoutSlotsAll total newFirst states)
  else if newFirst > first then
    let d := newFirst - first
    (newFirst, rotateFwd nodes d, bindRange total newFirst (rotateFwd states d) (S - d) d)
  else
    let d := first - newFirst
    (newFirst, rotateBwd nodes d, bindRange total newFirst (rotateBwd states d) 0 d)

/-- State of `InternalNodePool` together with the slot arrays of the
multi-shape (dynamic size) mode.  Display nodes are identified by ids;
`nextId` counts the ids handed out by `cc.instantiate` so far (each
instantiation yields a fresh id).  `pools` holds the per-type idle lists
(`push`/`pop` operate at a list's end); `slotNodes` and `slotTypes` mirror
`_slotNodes` and `_slotPrefabIndices` (type `-1` means "no prefab yet"). -/
structure PoolSys where
  nextId : ℕ
  pools : List (List ℕ)
  slotNodes : List (Option ℕ)
  slotTypes : List ℤ
deriving DecidableEq

/-- `InternalNodePool.put(node, typeIndex)`: appends the node to the idle list
of its type; for an unrecognized type the node is destroyed (it leaves the
system) and the pools are unchanged. -/
def poolPut (sys : PoolSys) (node : ℕ) (ty : ℤ) : PoolSys :=
  if 0 ≤ ty ∧ ty.toNat < sys.pools.length then
    { sys with pools := sys.pools.set ty.toNat (sys.pools.getD ty.toNat [] ++ [node]) }
  else sys

/-- `InternalNodePool.get(typeIndex)`: pops the most recently released idle
node of that type if any, otherwise instantiates a fresh node
(`cc.instantiate`); returns `none` for an unrecognized type. -/
def poolGet (sys : PoolSys) (ty : ℕ) : Option ℕ × PoolSys :=
  if ty < sys.pools.length then
    match (sys.pools.getD ty []).getLast? with
    | some nd =>
        (some nd, { sys with pools := sys.pools.set ty (sys.pools.getD ty []).dropLast })
    | none => (some sys.nextId, { sys with nextId := sys.nextId + 1 })
  else (none, sys)

/-- Installing a freshly acquired node into a slot: the tail of the else
branch of `_layoutSingleSlot` (`newNode = this._nodePool.get(target)`; on
`null` the call logs an error and returns with the slot arrays untouched,
otherwise the node is parented and recorded in `_slotNodes` /
`_slotPrefabIndices`). -/
def acquireInto (sys : PoolSys) (slot target : ℕ) : PoolSys :=
  match poolGet sys target with
  | (some newNd, sys2) =>
      { sys2 with slotNodes := sys2.slotNodes.set slot (some newNd),
                  slotTypes := sys2.slotTypes.set slot (target : ℤ) }
  | (none, sys2) => sys2

/-- The node-ownership effects of `_layoutSingleSlot` in multi-shape mode on
slot `slot` with required type `target` (`getItemTypeIndexFn(idx)`):
if the slot already holds a node of the required type it is reused;
otherwise the old node (if any, with a valid recorded type) is released to the
pool and a node of the required type is acquired. -/
def layoutSingleSlotPool (sys : PoolSys) (slot target : ℕ) : PoolSys :=
  let current := sys.slotTypes.getD slot (-1)
  match sys.slotNodes.getD slot none with
  | some nd =>
      if current = (target : ℤ) then sys
      else acquireInto (if 0 ≤ current then poolPut sys nd current else sys) slot target
  | none => acquireInto sys slot target

/-- The multi-shape initial state set up by `_initDynamicSlots`: one empty
idle list per prefab type, `_slotNodes` all `null`, `_slotPrefabIndices` all
`-1`, no instantiated nodes yet. -/
def initPoolSys (numTypes S : ℕ) : PoolSys :=
  { nextId := 0
    pools := List.replicate numTypes []
    slotNodes := List.replicate S none
    slotTypes := List.replicate S (-1) }

/-- Apply a sequence of slot reconciliations `(slot, targetType)` in order. -/
def runPool (sys : PoolSys) : List (ℕ × ℕ) → PoolSys
  | [] => sys
  | op :: ops => runPool (layoutSingleSlotPool sys op.1 op.2) ops

/-- All idle node ids across the per-type pools. -/
def poolNodes (sys : PoolSys) : List ℕ := sys.pools.flatten

/-- All bound node ids across the slots. -/
def boundNodes (sys : PoolSys) : List ℕ := sys.slotNodes.filterMap id

/-- Conservation invariant of the recycling system: no node id occurs twice
across the idle pools and the bound slots (every node is in exactly one
place), every id was instantiated (`< nextId`), the pool and slot arrays keep
their configured lengths, and every bound slot records a valid prefab type. -/
def PoolInv (numTypes S : ℕ) (sys : PoolSys) : Prop :=
  (poolNodes sys ++ boundNodes sys).Nodup ∧
  (∀ nd ∈ poolNodes sys ++ boundNodes sys, nd < sys.nextId) ∧
  sys.pools.length = numTypes ∧
  sys.slotNodes.length = S ∧
  sys.slotTypes.length = S ∧
  (∀ s, s < S → (sys.slotNodes.getD s none).isSome →
    0 ≤ sys.slotTypes.getD s (-1) ∧ (sys.slotTypes.getD s (-1)).toNat < numTypes)

/-- The `RefreshState` enum. -/
inductive RefreshState
  | IDLE
  | PULLING
  | READY
  | REFRESHING
  | COMPLETE
deriving DecidableEq

/-- The `LoadMoreState` enum. -/
inductive LoadMoreState
  | IDLE
  | PULLING
  | READY
  | LOADING
  | COMPLETE
  | NO_MORE
deriving DecidableEq

/-- `_updateRefreshState(state, offset)`: returns the new stored state and the
callback invocation (`onRefreshStateChangeFn(state, offset)`) when one fires;
a write of the state already stored is ignored. -/
def updateRefreshState (cur : RefreshState) (s : RefreshState) (off : ℚ) :
    RefreshState × Option (RefreshState × ℚ) :=
  if cur = s then (cur, none) else (s, some (s, off))

/-- `_updateLoadMoreState(state, offset)`: returns the new stored state and the
callback invocation (`onLoadMoreStateChangeFn(state, offset)`) when one fires. -/
def updateLoadMoreState (cur : LoadMoreState) (s : LoadMoreState) (off : ℚ) :
    LoadMoreState × Option (LoadMoreState × ℚ) :=
  if cur = s then (cur, none) else (s, some (s, off))

/-- Fold a sequence of writes through `_updateRefreshState`, collecting the
callback invocations in order. -/
def runRefreshWrites (cur : RefreshState) : List (RefreshState × ℚ) →
    RefreshState × List (RefreshState × ℚ)
  | [] => (cur, [])
  | (s, off) :: ws =>
      match updateRefreshState cur s off with
      | (c, none) => runRefreshWrites c ws
      | (c, some ev) =>
          let r := runRefreshWrites c ws
          (r.1, ev :: r.2)

/-- Fold a sequence of writes through `_updateLoadMoreState`, collecting the
callback invocations in order. -/
def runLoadMoreWrites (cur : LoadMoreState) : List (LoadMoreState × ℚ) →
    LoadMoreState × List (LoadMoreState × ℚ)
  | [] => (cur, [])
  | (s, off) :: ws =>
      match updateLoadMoreState cur s off with
      | (c, none) => runLoadMoreWrites c ws
      | (c, some ev) =>
          let r := runLoadMoreWrites c ws
          (r.1, ev :: r.2)

/-- Specification-side: the subsequence of writes that actually change the
stored state value. -/
def refreshChanges (cur : RefreshState) : List (RefreshState × ℚ) →
    List (RefreshState × ℚ)
  | [] => []
  | (s, off) :: ws =>
      if cur = s then refreshChanges cur ws else (s, off) :: refreshChanges s ws

/-- Specification-side: the subsequence of writes that actually change the
stored state value. -/
def loadMoreChanges (cur : LoadMoreState) : List (LoadMoreState × ℚ) →
    List (LoadMoreState × ℚ)
  | [] => []
  | (s, off) :: ws =>
      if cur = s then loadMoreChanges cur ws else (s, off) :: loadMoreChanges s ws

/-- Fixed configuration of the gesture/motion subsystem (component fields and
inspector properties read by `_onMove`, `_onUp` and `update`). -/
structure GConfig where
  isVertical : Bool
  enablePullRefresh : Bool
  enableLoadMore : Bool
  pullRefreshThreshold : ℚ
  pullRefreshMaxOffset : ℚ
  loadMoreThreshold : ℚ
  loadMoreMaxOffset : ℚ
  pullDampingRate : ℚ
  pixelAlign : Bool
  velocityWindow : ℚ
  maxVelocity : ℚ
  springK : ℚ
  springC : ℚ
  velocitySnap : ℚ
  inertiaDampK : ℚ
  useIOSDecelerationCurve : Bool
deriving DecidableEq

/-- Mutable gesture/motion state of the component: content main-axis
position, velocity, touch/tween flags, the drag sample window, the derived
bounds, both gesture FSMs with their overscroll offsets and in-progress
flags, the standing `_hasMore` flag, whether a `scheduleOnce` auto-reset is
outstanding, and the callback invocation logs. -/
structure GState where
  pos : ℚ
  velocity : ℚ
  isTouching : Bool
  scrollTweenActive : Bool
  velSamples : List (ℚ × ℚ)
  boundsMin : ℚ
  boundsMax : ℚ
  refreshState : RefreshState
  loadMoreState : LoadMoreState
  pullOffset : ℚ
  loadOffset : ℚ
  isRefreshing : Bool
  isLoadingMore : Bool
  hasMore : Bool
  pendingRefreshReset : Bool
  pendingLoadMoreReset : Bool
  refreshLog : List (RefreshState × ℚ)
  loadMoreLog : List (LoadMoreState × ℚ)
deriving DecidableEq

/-- `_updateRefreshState` acting on the component state, appending the fired
callback (if any) to the log. -/
def gUpdateRefreshState (st : GState) (s : RefreshState) (off : ℚ) : GState :=
  match updateRefreshState st.refreshState s off with
  | (c, none) => { st with refreshState := c }
  | (c, some ev) => { st with refreshState := c, refreshLog := st.refreshLog ++ [ev] }

/-- `_updateLoadMoreState` acting on the component state. -/
def gUpdateLoadMoreState (st : GState) (s : LoadMoreState) (off : ℚ) : GState :=
  match updateLoadMoreState st.loadMoreState s off with
  | (c, none) => { st with loadMoreState := c }
  | (c, some ev) => { st with loadMoreState := c, loadMoreLog := st.loadMoreLog ++ [ev] }

/-- `_setContentMainPos(pos)`: pixel-aligns when configured, then writes the
content main-axis position (a rational is always finite). -/
def setContentMainPos (cfg : GConfig) (st : GState) (p : ℚ) : GState :=
  { st with pos := if cfg.pixelAlign then jsRound p else p }

/-- `_onDown`: marks the touch, zeroes the velocity, clears the sample window
and stops any in-flight scroll tween. -/
def onDown (st : GState) : GState :=
  { st with isTouching := true, velocity := 0, velSamples := [],
            scrollTweenActive := false }

/-- `_onMove(e)` for a drag event with timestamp `t` (seconds) and main-axis
delta `delta`: applies the pull-refresh and load-more branches (resistance,
offset accumulation, FSM writes), moves the content by the damped delta, and
records the velocity sample, pruning samples older than the trailing window.
The windowing update `_updateVisible(false)` does not touch this state. -/
def onMove (cfg : GConfig) (st : GState) (t delta : ℚ) : GState :=
  if st.isTouching = true then
    let minBound := min st.boundsMin st.boundsMax
    let maxBound := max st.boundsMin st.boundsMax
    let step1 :=
      if cfg.enablePullRefresh = true ∧ st.isRefreshing = false ∧
          (if cfg.isVertical = true then st.pos ≤ minBound ∧ delta < 0
           else maxBound ≤ st.pos ∧ 0 < delta) then
        let overOffset := if cfg.isVertical = true then minBound - st.pos
          else st.pos - maxBound
        let resistance :=
          1 - min (overOffset / cfg.pullRefreshMaxOffset) 1 * (1 - cfg.pullDampingRate)
        let fd := delta * resistance
        let pOff := min (overOffset + |fd|) cfg.pullRefreshMaxOffset
        let st' := { st with pullOffset := pOff }
        (fd,
          if cfg.pullRefreshThreshold ≤ pOff then
            gUpdateRefreshState st' RefreshState.READY pOff
          else gUpdateRefreshState st' RefreshState.PULLING pOff)
      else (delta, st)
    let step2 :=
      if cfg.enableLoadMore = true ∧ st.isLoadingMore = false ∧ st.hasMore = true ∧
          (if cfg.isVertical = true then maxBound ≤ st.pos ∧ 0 < delta
           else st.pos ≤ minBound ∧ delta < 0) then
        let overOffset := if cfg.isVertical = true then st.pos - maxBound
          else minBound - st.pos
        let resistance :=
          1 - min (overOffset / cfg.loadMoreMaxOffset) 1 * (1 - cfg.pullDampingRate)
        let fd := delta * resistance
        let lOff := min (overOffset + |fd|) cfg.loadMoreMaxOffset
        let st' := { step1.2 with loadOffset := lOff }
        (fd,
          if cfg.loadMoreThreshold ≤ lOff then
            gUpdateLoadMoreState st' LoadMoreState.READY lOff
          else gUpdateLoadMoreState st' LoadMoreState.PULLING lOff)
      else step1
    let applied := st.pos + step2.1
    let aligned := if cfg.pixelAlign then jsRound applied else applied
    let st3 := setContentMainPos cfg step2.2 aligned
    let samples := st3.velSamples ++ [(t, step2.1)]
    { st3 with velSamples := samples.dropWhile fun s => s.1 < t - cfg.velocityWindow }
  else st

/-- The summation loop of `_onUp`'s velocity estimation: starting at sample
index `i`, accumulates the deltas and the pairwise elapsed times of the
remaining samples (`sum += samples[i].delta; dtSum += samples[i].t -
samples[i-1].t`). -/
def velAccumGo (samples : List (ℚ × ℚ)) (i : ℕ) (sum dtSum : ℚ) : ℚ × ℚ :=
  if i < samples.length then
    velAccumGo samples (i + 1) (sum + (samples.getD i (0, 0)).2)
      (dtSum + ((samples.getD i (0, 0)).1 - (samples.getD (i - 1) (0, 0)).1))
  else (sum, dtSum)
termination_by samples.length - i
decreasing_by simp_wf; omega

/-- `_triggerRefresh`: marks the refresh in progress, zeroes the velocity and
fires the `REFRESHING` transition at the threshold offset. -/
def triggerRefresh (cfg : GConfig) (st : GState) : GState :=
  gUpdateRefreshState { st with isRefreshing := true, velocity := 0 }
    RefreshState.REFRESHING cfg.pullRefreshThreshold

/-- `_triggerLoadMore`: marks the load in progress, zeroes the velocity and
fires the `LOADING` transition at the threshold offset. -/
def triggerLoadMore (cfg : GConfig) (st : GState) : GState :=
  gUpdateLoadMoreState { st with isLoadingMore := true, velocity := 0 }
    LoadMoreState.LOADING cfg.loadMoreThreshold

/-- `_onUp`: consumes the gesture by a refresh/load trigger when the matching
FSM is `READY`, otherwise resets inactive FSMs to `IDLE` and estimates the
release velocity from the drag sample window (sum of the recent deltas over
their summed elapsed time, clamped; single-sample × 60 fallback). -/
def onUp (cfg : GConfig) (st : GState) : GState :=
  if st.isTouching = true then
    let st0 := { st with isTouching := false }
    if st0.refreshState = RefreshState.READY ∧ st0.isRefreshing = false then
      { triggerRefresh cfg st0 with velSamples := [] }
    else if st0.loadMoreState = LoadMoreState.READY ∧ st0.isLoadingMore = false then
      { triggerLoadMore cfg st0 with velSamples := [] }
    else
      let st1 :=
        if st0.refreshState ≠ RefreshState.REFRESHING then
          gUpdateRefreshState { st0 with pullOffset := 0 } RefreshState.IDLE 0
        else st0
      let st2 :=
        if st1.loadMoreState ≠ LoadMoreState.LOADING then
          gUpdateLoadMoreState { st1 with loadOffset := 0 } LoadMoreState.IDLE 0
        else st1
      let n := st2.velSamples.length
      let v :=
        if 2 ≤ n then
          let sampleCount := min n 5
          let startIndex := n - sampleCount
          let acc := velAccumGo st2.velSamples (startIndex + 1) 0 0
          if 1 / 1000 < acc.2 then
            clampQ (acc.1 / acc.2) (-cfg.maxVelocity) cfg.maxVelocity
          else
            clampQ ((st2.velSamples.getD (n - 1) (0, 0)).2 * 60)
              (-cfg.maxVelocity) cfg.maxVelocity
        else if n = 1 then
          clampQ ((st2.velSamples.getD 0 (0, 0)).2 * 60)
            (-cfg.maxVelocity) cfg.maxVelocity
        else 0
      { st2 with velocity := v, velSamples := [] }
  else st

/-- `finishRefresh(success)`: no-op unless a refresh is in progress; otherwise
clears the in-progress flag and offset, fires `COMPLETE` (or `IDLE` on
failure), and schedules the delayed auto-reset to `IDLE`. -/
def finishRefresh (st : GState) (success : Bool) : GState :=
  if st.isRefreshing = false then st
  else
    let st1 := { st with isRefreshing := false, pullOffset := 0 }
    let st2 := gUpdateRefreshState st1
      (if success then RefreshState.COMPLETE else RefreshState.IDLE) 0
    { st2 with pendingRefreshReset := true }

/-- The `scheduleOnce` callback of `finishRefresh` firing: back to `IDLE` only
if still `COMPLETE`. -/
def fireRefreshReset (st : GState) : GState :=
  if st.pendingRefreshReset = true then
    let st1 :=
      if st.refreshState = RefreshState.COMPLETE then
        gUpdateRefreshState st RefreshState.IDLE 0
      else st
    { st1 with pendingRefreshReset := false }
  else st

/-- `finishLoadMore(hasMore)`: no-op unless a load is in progress; otherwise
clears the in-progress flag and offset, records `hasMore`, and transitions to
the sticky `NO_MORE` (no scheduled reset) when `hasMore` is false, else to
`COMPLETE` with the delayed auto-reset scheduled. -/
def finishLoadMore (st : GState) (hasMore : Bool) : GState :=
  if st.isLoadingMore = false then st
  else
    let st1 := { st with isLoadingMore := false, loadOffset := 0, hasMore := hasMore }
    if hasMore = false then gUpdateLoadMoreState st1 LoadMoreState.NO_MORE 0
    else
      let st2 := gUpdateLoadMoreState st1 LoadMoreState.COMPLETE 0
      { st2 with pendingLoadMoreReset := true }

/-- The `scheduleOnce` callback of `finishLoadMore` firing: back to `IDLE`
only if still `COMPLETE`. -/
def fireLoadMoreReset (st : GState) : GState :=
  if st.pendingLoadMoreReset = true then
    let st1 :=
      if st.loadMoreState = LoadMoreState.COMPLETE then
        gUpdateLoadMoreState st LoadMoreState.IDLE 0
      else st
    { st1 with pendingLoadMoreReset := false }
  else st

/-- `resetLoadMoreState()`: restores `_hasMore`, clears the in-progress flag
and offset, and writes `IDLE`. -/
def resetLoadMoreState (st : GState) : GState :=
  gUpdateLoadMoreState
    { st with hasMore := true, isLoadingMore := false, loadOffset := 0 }
    LoadMoreState.IDLE 0

/-- The per-frame tick `update(dt)` (free motion / boundary springs / holding
positions).  The exponential decay factors `Math.exp(x)` are transcendental
and supplied by the oracle `expv` (mapping the exponent to its exponential);
`_updateVisible(false)` does not touch this state. -/
def updateTick (cfg : GConfig) (st : GState) (dt : ℚ) (expv : ℚ → ℚ) : GState :=
  if st.isTouching = true ∨ st.scrollTweenActive = true then st
  else
    let minBound := min st.boundsMin st.boundsMax
    let maxBound := max st.boundsMin st.boundsMax
    let step :=
      if st.isRefreshing = true ∧ st.refreshState = RefreshState.REFRESHING then
        let refreshPos := if cfg.isVertical = true then -cfg.pullRefreshThreshold
          else cfg.pullRefreshThreshold
        (-cfg.springK * (st.pos - refreshPos) - cfg.springC * st.velocity, st.velocity)
      else if st.isLoadingMore = true ∧ st.loadMoreState = LoadMoreState.LOADING then
        let loadPos := if cfg.isVertical = true then st.boundsMax + cfg.loadMoreThreshold
          else st.boundsMin - cfg.loadMoreThreshold
        (-cfg.springK * (st.pos - loadPos) - cfg.springC * st.velocity, st.velocity)
      else if st.pos < minBound then
        (-cfg.springK * (st.pos - minBound) - cfg.springC * st.velocity, st.velocity)
      else if maxBound < st.pos then
        (-cfg.springK * (st.pos - maxBound) - cfg.springC * st.velocity, st.velocity)
      else
        (0,
          if cfg.useIOSDecelerationCurve = true then
            if 2000 < |st.velocity| then
              st.velocity * expv (-(cfg.inertiaDampK * (7 / 10)) * dt)
            else if 500 < |st.velocity| then
              st.velocity * expv (-cfg.inertiaDampK * dt)
            else st.velocity * expv (-(cfg.inertiaDampK * (13 / 10)) * dt)
          else st.velocity * expv (-cfg.inertiaDampK * dt))
    let vel2 := step.2 + step.1 * dt
    let vel3 := if |vel2| < cfg.velocitySnap ∧ step.1 = 0 then 0 else vel2
    if vel3 ≠ 0 then
      let p1 := st.pos + vel3 * dt
      let p2 := if cfg.pixelAlign then jsRound p1 else p1
      setContentMainPos cfg { st with velocity := vel3 } p2
    else { st with velocity := vel3 }

/-- Events that can hit the widget while no touch release and no explicit
load-more reset occurs: touch-down, drag-move, frame tick, the two public
finish calls, and the two scheduled auto-reset callbacks firing. -/
inductive GOp
  | down
  | move (t delta : ℚ)
  | tick (dt : ℚ)
  | finishR (success : Bool)
  | finishLM (hasMore : Bool)
  | fireR
  | fireLM

/-- Apply one event to the state. -/
def applyOp (cfg : GConfig) (expv : ℚ → ℚ) (st : GState) : GOp → GState
  | GOp.down => onDown st
  | GOp.move t delta => onMove cfg st t delta
  | GOp.tick dt => updateTick cfg st dt expv
  | GOp.finishR b => finishRefresh st b
  | GOp.finishLM b => finishLoadMore st b
  | GOp.fireR => fireRefreshReset st
  | GOp.fireLM => fireLoadMoreReset st

/-- Apply a sequence of events in order. -/
def runOps (cfg : GConfig) (expv : ℚ → ℚ) (st : GState) : List GOp → GState
  | [] => st
  | op :: ops => runOps cfg expv (applyOp cfg expv st op) ops

/-- The sticky no-more configuration of the load-more gesture: state
`NO_MORE`, `_hasMore` cleared, no load in progress. -/
def noMoreInv (st : GState) : Prop :=
  st.loadMoreState = LoadMoreState.NO_MORE ∧ st.hasMore = false ∧
    st.isLoadingMore = false

/-- Sample configuration: vertical list, both pull gestures enabled with the
scenario parameters (threshold 100, max offset 150, damping 0.5), no pixel
alignment, defaults elsewhere. -/
def cfgPull : GConfig :=
  { isVertical := true, enablePullRefresh := true, enableLoadMore := true,
    pullRefreshThreshold := 100, pullRefreshMaxOffset := 150,
    loadMoreThreshold := 100, loadMoreMaxOffset := 150,
    pullDampingRate := 1 / 2, pixelAlign := false, velocityWindow := 2 / 25,
    maxVelocity := 6000, springK := 150, springC := 26, velocitySnap := 5,
    inertiaDampK := 1, useIOSDecelerationCurve := true }

/-- Sample state: content pulled 100 px past the top boundary during a touch,
both FSMs idle. -/
def pullState : GState :=
  { pos := -100, velocity := 0, isTouching := true, scrollTweenActive := false,
    velSamples := [], boundsMin := 0, boundsMax := 0,
    refreshState := RefreshState.IDLE, loadMoreState := LoadMoreState.IDLE,
    pullOffset := 0, loadOffset := 0, isRefreshing := false,
    isLoadingMore := false, hasMore := true, pendingRefreshReset := false,
    pendingLoadMoreReset := false, refreshLog := [], loadMoreLog := [] }

/-- Sample state: a touch in progress with two drag samples 10 ms apart. -/
def velState : GState :=
  { pullState with pos := 0, velSamples := [(0, 10), (1 / 100, 20)] }

/-- Sample state: a load-more in progress (`LOADING`). -/
def loadingState : GState :=
  { pullState with
    pos := 0, isTouching := false,
    loadMoreState := LoadMoreState.LOADING, isLoadingMore := true }

/-- Specification-side: the overscroll offset past the pull-refresh boundary
(`minBound - pos` vertically, `pos - maxBound` horizontally). -/
def pullOver (cfg : GConfig) (st : GState) : ℚ :=
  if cfg.isVertical = true then min st.boundsMin st.boundsMax - st.pos
  else st.pos - max st.boundsMin st.boundsMax

/-- Specification-side: the pull-refresh resistance factor
`1 − min(overOffset/maxOffset, 1)·(1 − dampingRate)`. -/
def pullResistance (cfg : GConfig) (st : GState) : ℚ :=
  1 - min (pullOver cfg st / cfg.pullRefreshMaxOffset) 1 * (1 - cfg.pullDampingRate)

/-- Dynamic-size (non-uniform) mode state of the component as touched by
`updateItemHeight`: the size table, the prefix positions, the derived content
size, the content node's main size, the scroll bounds, the content scroll
position, and the slot window. -/
structure DynState where
  isVertical : Bool
  spacing : ℚ
  viewportSize : ℚ
  buffer : ℕ
  totalCount : ℕ
  itemSizes : List ℚ
  prefixPositions : List ℚ
  contentSize : ℚ
  contentNodeSize : ℚ
  boundsMin : ℚ
  boundsMax : ℚ
  scrollPos : ℚ
  slots : ℕ
  slotFirstIndex : ℕ
  slotStates : List SlotState
deriving DecidableEq

/-- `_buildPrefixSum`: rebuilds the whole prefix table from `_itemSizes`,
recomputes `_contentSize` (floored at 0), writes the content node's main size
(`max(contentSize, viewport)`) and the derived bounds. -/
def buildPrefixSum (st : DynState) : DynState :=
  let cs := contentSizeOf st.itemSizes st.spacing
  { st with
    prefixPositions := buildPrefixPositions st.itemSizes st.spacing,
    contentSize := cs,
    contentNodeSize := max cs st.viewportSize,
    boundsMin := if st.isVertical then 0 else -(max (cs - st.viewportSize) 0),
    boundsMax := if st.isVertical then max (cs - st.viewportSize) 0 else 0 }

/-- `_rebuildPrefixSumFrom(startIndex)`: full rebuild at index 0, otherwise a
suffix recomputation seeded from the preceding entry, then the same
content-size/bounds updates as `_buildPrefixSum`. -/
def rebuildPrefixSumFrom (st : DynState) (startIndex : ℕ) : DynState :=
  if startIndex = 0 then buildPrefixSum st
  else
    let acc0 := st.prefixPositions.getD (startIndex - 1) 0 +
      st.itemSizes.getD (startIndex - 1) 0 + st.spacing
    let cs := max
      (acc0 + ((st.itemSizes.drop startIndex).map (· + st.spacing)).sum - st.spacing) 0
    { st with
      prefixPositions := st.prefixPositions.take startIndex ++
        buildPrefixAux st.spacing (st.itemSizes.drop startIndex) acc0,
      contentSize := cs,
      contentNodeSize := max cs st.viewportSize,
      boundsMin := if st.isVertical then 0 else -(max (cs - st.viewportSize) 0),
      boundsMax := if st.isVertical then max (cs - st.viewportSize) 0 else 0 }

/- The dynamic-size mutual recursion of the source: `updateItemHeight`
rebuilds and calls `_updateVisible(true)`, whose `_layoutSlots` loop calls
`_layoutSingleSlot` per slot, whose size-reconciliation pass (comparing the
stored size against `getItemHeightFn`, here the oracle `hfn`) recursively
calls `updateItemHeight` on a mismatch.  The recursion terminates in the
source because every recursive call fixes one mismatched size; here the
cycle is indexed by explicit `fuel`, burnt once per `updateItemHeight`
entry, so that any run whose nesting depth stays below the supplied fuel
computes exactly what the source computes. -/
mutual

/-- `updateItemHeight(index, newSize)` in dynamic-size mode with an explicit
new size and the height callback `hfn` set: out-of-range indices warn and
return; an unchanged stored size returns without any mutation; otherwise the
size is stored, the prefix table is rebuilt from `index` and the window is
relaid out (which may itself trigger further size updates).  The boolean
reports whether a rebuild-and-relayout was triggered. -/
def updateItemHeightRec (hfn : ℕ → ℚ) (fuel : ℕ) (st : DynState) (index : ℕ)
    (newSize : ℚ) : DynState × Bool :=
  if h0 : fuel = 0 then (st, false)
  else if st.totalCount ≤ index then (st, false)
  else if st.itemSizes.getD index 0 = newSize then (st, false)
  else
    (updateVisibleDynRec hfn (fuel - 1)
      (rebuildPrefixSumFrom
        { st with itemSizes := st.itemSizes.set index newSize } index), true)
termination_by (fuel, 0, 0)

/-- `_updateVisible(true)` in dynamic-size mode: clamps the scroll position
into `[0, contentSize]` (mirrored horizontally), computes the visible range,
forces first index 0 when the data fits in the slots, writes
`_slotFirstIndex` and runs the `_layoutSlots` loop. -/
def updateVisibleDynRec (hfn : ℕ → ℚ) (fuel : ℕ) (st : DynState) : DynState :=
  let searchPos := if st.isVertical then clampQ st.scrollPos 0 st.contentSize
    else clampQ (-st.scrollPos) 0 st.contentSize
  let range := calcVisibleRange st.prefixPositions st.viewportSize st.buffer searchPos
  let newFirst := if st.totalCount < st.slots then 0 else range.1
  layoutSlotsGo hfn fuel newFirst 0 st.slots { st with slotFirstIndex := newFirst }
termination_by (fuel, 3, 0)

/-- The `_layoutSlots(firstIndex, true)` loop from slot `s` with `rem` slots
left (`rem` starts at `_slots`, which never changes during the cascade):
slots past `totalCount` are deactivated, the rest go through
`_layoutSingleSlot`; the loop then continues on the state the call returned,
with the `firstIndex` parameter captured at entry as in the source. -/
def layoutSlotsGo (hfn : ℕ → ℚ) (fuel firstIndex s rem : ℕ) (st : DynState) :
    DynState :=
  if h0 : rem = 0 then st
  else
    layoutSlotsGo hfn fuel firstIndex (s + 1) (rem - 1)
      (if st.totalCount ≤ firstIndex + s then
        { st with slotStates := st.slotStates.set s SlotState.inactive }
      else layoutSingleSlotDyn hfn fuel st (firstIndex + s) s)
termination_by (fuel, 2, rem)

/-- `_layoutSingleSlot(node, idx, slot)` in dynamic-size mode, node
management elided (the pool model of another section tracks it): the slot is
bound to `idx` (node activated, click handler and render applied), then the
size-reconciliation pass of lines 1243-1248 compares the stored size with
`getItemHeightFn(idx)` and on disagreement recursively calls
`updateItemHeight(idx, expectedSize)` and returns (the measured-size branch
taken when no callback is set behaves the same with a tolerance of 1). -/
def layoutSingleSlotDyn (hfn : ℕ → ℚ) (fuel : ℕ) (st : DynState) (idx slot : ℕ) :
    DynState :=
  let st1 := { st with slotStates := st.slotStates.set slot (SlotState.bound idx) }
  if st1.itemSizes.getD idx 0 = hfn idx then st1
  else (updateItemHeightRec hfn fuel st1 idx (hfn idx)).1
termination_by (fuel, 1, 0)

end

/-- Height callback returning 50 for every index: disagrees with a written
size of 80, so the reconciliation pass reverts it. -/
def hfn50 : ℕ → ℚ := fun _ => 50

/-- Height callback agreeing with a write of 80 at index 1 and with the
stored 50 elsewhere. -/
def hfnSample : ℕ → ℚ := fun j => if j = 1 then 80 else 50

/-- Sample dynamic-size state: three items of size 50, spacing 0,
viewport 80, scenario-C-like. -/
def dynSample : DynState :=
  { isVertical := true, spacing := 0, viewportSize := 80, buffer := 1,
    totalCount := 3, itemSizes := [50, 50, 50],
    prefixPositions := [0, 50, 100], contentSize := 150,
    contentNodeSize := 150, boundsMin := 0, boundsMax := 70, scrollPos := 0,
    slots := 3, slotFirstIndex := 0,
    slotStates := [SlotState.bound 0, SlotState.bound 1, SlotState.bound 2] }

theorem length_buildPrefixAux (spacing : ℚ) (sizes : List ℚ) (acc : ℚ) :
    (buildPrefixAux spacing sizes acc).length = sizes.length := by
  induction sizes generalizing acc with
  | nil => rfl
  | cons s rest ih => simp [buildPrefixAux, ih]

theorem length_buildPrefixPositions (sizes : List ℚ) (spacing : ℚ) :
    (buildPrefixPositions sizes spacing).length = sizes.length :=
  length_buildPrefixAux spacing sizes 0

theorem startPos_zero (sizes : List ℚ) (spacing : ℚ) : startPos sizes spacing 0 = 0 := rfl

theorem startPos_cons (s : ℚ) (rest : List ℚ) (spacing : ℚ) (j : ℕ) :
    startPos (s :: rest) spacing (j + 1) = (s + spacing) + startPos rest spacing j := by
  unfold startPos
  simp

theorem startPos_succ (sizes : List ℚ) (spacing : ℚ) (i : ℕ) (hi : i < sizes.length) :
    startPos sizes spacing (i + 1) = startPos sizes spacing i + (sizes.getD i 0 + spacing) := by
  induction sizes generalizing i with
  | nil => simp at hi
  | cons s rest ih =>
    cases i with
    | zero => simp [startPos_cons, startPos_zero, startPos]
    | succ j =>
      have hj : j < rest.length := by simpa using hi
      rw [startPos_cons, startPos_cons, ih j hj]
      simp [List.getD_cons_succ]
      ring

theorem buildPrefixAux_getD (spacing : ℚ) (sizes : List ℚ) (acc : ℚ) (i : ℕ)
    (hi : i < sizes.length) :
    (buildPrefixAux spacing sizes acc).getD i 0 = acc + startPos sizes spacing i := by
  induction sizes generalizing acc i with
  | nil => simp at hi
  | cons s rest ih =>
    cases i with
    | zero => simp [buildPrefixAux, startPos]
    | succ j =>
      have hj : j < rest.length := by simpa using hi
      have := ih (acc + s + spacing) j hj
      simp only [buildPrefixAux, List.getD_cons_succ, this, startPos_cons]
      ring

theorem buildPrefixPositions_getD (sizes : List ℚ) (spacing : ℚ) (i : ℕ)
    (hi : i < sizes.length) :
    (buildPrefixPositions sizes spacing).getD i 0 = startPos sizes spacing i := by
  have := buildPrefixAux_getD spacing sizes 0 i hi
  simpa [buildPrefixPositions] using this

theorem startPos_mono (sizes : List ℚ) (spacing : ℚ)
    (hnn : ∀ k, k < sizes.length → 0 ≤ sizes.getD k 0 + spacing) :
    ∀ i j, i ≤ j → j ≤ sizes.length → startPos sizes spacing i ≤ startPos sizes spacing j := by
  intro i j hij hj
  induction j with
  | zero => simp_all
  | succ m ih =>
    rcases Nat.lt_or_ge i (m + 1) with h | h
    · have h1 : startPos sizes spacing i ≤ startPos sizes spacing m :=
        ih (by omega) (by omega)
      have hm : m < sizes.length := by omega
      rw [startPos_succ sizes spacing m hm]
      have := hnn m hm
      linarith
    · have : i = m + 1 := by omega
      simp [this]

theorem startPos_strict (sizes : List ℚ) (spacing : ℚ)
    (hp : ∀ k, k < sizes.length → 0 < sizes.getD k 0 + spacing) :
    ∀ i j, i < j → j ≤ sizes.length → startPos sizes spacing i < startPos sizes spacing j := by
  intro i j hij hj
  have h1 : startPos sizes spacing i ≤ startPos sizes spacing (j - 1) :=
    startPos_mono sizes spacing (fun k hk => le_of_lt (hp k hk)) i (j - 1) (by omega) (by omega)
  have hj1 : j - 1 < sizes.length := by omega
  have h2 := startPos_succ sizes spacing (j - 1) hj1
  have h3 := hp (j - 1) hj1
  have hje : j - 1 + 1 = j := by omega
  rw [hje] at h2
  linarith

theorem startPos_nonneg (sizes : List ℚ) (spacing : ℚ)
    (hnn : ∀ k, k < sizes.length → 0 ≤ sizes.getD k 0 + spacing) (i : ℕ)
    (hi : i ≤ sizes.length) :
    0 ≤ startPos sizes spacing i := by
  have := startPos_mono sizes spacing hnn 0 i (Nat.zero_le i) hi
  simpa [startPos_zero] using this

theorem upperIdx_le_length (pos : ℚ) (ps : List ℚ) : upperIdx pos ps ≤ ps.length := by
  induction ps with
  | nil => simp [upperIdx]
  | cons x xs ih =>
    by_cases h : pos < x <;> simp [upperIdx, h] <;> omega

theorem getD_le_of_lt_upperIdx (pos : ℚ) (ps : List ℚ) (j : ℕ)
    (hj : j < upperIdx pos ps) : ps.getD j 0 ≤ pos := by
  induction ps generalizing j with
  | nil => simp [upperIdx] at hj
  | cons x xs ih =>
    by_cases h : pos < x
    · simp [upperIdx, h] at hj
    · cases j with
      | zero => simpa using le_of_not_lt h
      | succ k =>
        simp only [upperIdx, if_neg h] at hj
        exact ih k (by omega)

theorem lt_getD_upperIdx (pos : ℚ) (ps : List ℚ)
    (h : upperIdx pos ps < ps.length) : pos < ps.getD (upperIdx pos ps) 0 := by
  induction ps with
  | nil => simp at h
  | cons x xs ih =>
    by_cases hx : pos < x
    · simpa [upperIdx, hx] using hx
    · simp only [upperIdx, if_neg hx] at h ⊢
      simpa using ih (by simpa using h)

theorem upperIdx_unique (pos : ℚ) (ps : List ℚ) (u : ℕ) (hu : u ≤ ps.length)
    (h1 : ∀ j, j < u → ps.getD j 0 ≤ pos)
    (h2 : u < ps.length → pos < ps.getD u 0) : upperIdx pos ps = u := by
  induction ps generalizing u with
  | nil =>
    simp only [upperIdx]
    simp at hu
    omega
  | cons x xs ih =>
    by_cases hx : pos < x
    · by_contra hne
      have hu0 : 0 < u := by
        rcases Nat.eq_zero_or_pos u with h | h
        · exact absurd (by simp [upperIdx, hx, h]) hne
        · exact h
      have := h1 0 hu0
      simp at this
      exact absurd hx (not_lt.mpr this)
    · have hu0 : u ≠ 0 := by
        intro h0
        have := h2 (by simp [h0])
        rw [h0] at this
        simp at this
        exact hx this
      obtain ⟨v, rfl⟩ : ∃ v, u = v + 1 := ⟨u - 1, by omega⟩
      simp only [upperIdx, if_neg hx]
      have : upperIdx pos xs = v := by
        apply ih v (by simpa using hu)
        · intro j hj
          have := h1 (j + 1) (by omega)
          simpa using this
        · intro hv
          have := h2 (by simpa using hv)
          simpa using this
      omega

theorem bsearch_terminal_eq (ps : List ℚ) (pos : ℚ) (l : ℤ) (h0 : 0 ≤ l)
    (hlen : l ≤ (ps.length : ℤ))
    (hlow : ∀ j : ℕ, (j : ℤ) < l → ps.getD j 0 ≤ pos)
    (hhigh : ∀ j : ℕ, l ≤ (j : ℤ) → j < ps.length → pos < ps.getD j 0) :
    l = (upperIdx pos ps : ℤ) := by
  have h := upperIdx_unique pos ps l.toNat (by omega)
    (fun j hj => hlow j (by omega))
    (fun hl => hhigh l.toNat (by omega) hl)
  omega

theorem bsearchGo_eq (ps : List ℚ) (pos : ℚ)
    (hmono : ∀ i j : ℕ, i ≤ j → j < ps.length → ps.getD i 0 ≤ ps.getD j 0) :
    ∀ n : ℕ, ∀ l r : ℤ, (r + 1 - l).toNat ≤ n → 0 ≤ l → l ≤ r + 1 → r < (ps.length : ℤ) →
      (∀ j : ℕ, (j : ℤ) < l → ps.getD j 0 ≤ pos) →
      (∀ j : ℕ, r < (j : ℤ) → j < ps.length → pos < ps.getD j 0) →
      bsearchGo ps pos l r (r + 1) = (upperIdx pos ps : ℤ) := by
  intro n
  induction n with
  | zero =>
    intro l r hfuel hl0 hlr hr hlow hhigh
    have hgt : ¬ l ≤ r := by omega
    rw [bsearchGo, if_neg hgt]
    exact bsearch_terminal_eq ps pos (r + 1) (by omega) (by omega)
      (fun j hj => hlow j (by omega)) (fun j hj => hhigh j (by omega))
  | succ n ih =>
    intro l r hfuel hl0 hlr hr hlow hhigh
    by_cases hc : l ≤ r
    · have hm1 : l ≤ (l + r) / 2 := by omega
      have hm2 : (l + r) / 2 ≤ r := by omega
      rw [bsearchGo]
      simp only [if_pos hc]
      by_cases hcmp : pos < ps.getD ((l + r) / 2).toNat 0
      · simp only [if_pos hcmp]
        have hrec := ih l ((l + r) / 2 - 1) (by omega) hl0 (by omega) (by omega) hlow
          (by
            intro j hj hjlen
            have hmj : ((l + r) / 2).toNat ≤ j := by omega
            exact lt_of_lt_of_le hcmp (hmono ((l + r) / 2).toNat j hmj hjlen))
        rw [show (l + r) / 2 - 1 + 1 = (l + r) / 2 by ring] at hrec
        exact hrec
      · simp only [if_neg hcmp]
        have hmlen : ((l + r) / 2).toNat < ps.length := by omega
        exact ih ((l + r) / 2 + 1) r (by omega) (by omega) (by omega) hr
          (by
            intro j hj
            have hjm : j ≤ ((l + r) / 2).toNat := by omega
            exact le_trans (hmono j ((l + r) / 2).toNat hjm hmlen) (not_lt.mp hcmp))
          hhigh
    · rw [bsearchGo, if_neg hc]
      exact bsearch_terminal_eq ps pos (r + 1) (by omega) (by omega)
        (fun j hj => hlow j (by omega)) (fun j hj => hhigh j (by omega))

theorem posToFirstIndex_eq_upper (ps : List ℚ) (pos : ℚ)
    (hmono : ∀ i j : ℕ, i ≤ j → j < ps.length → ps.getD i 0 ≤ ps.getD j 0)
    (hpos : 0 < pos) :
    posToFirstIndex ps pos = upperIdx pos ps - 1 := by
  unfold posToFirstIndex
  rw [if_neg (not_le.mpr hpos)]
  have h := bsearchGo_eq ps pos hmono ((ps.length : ℤ) - 1 + 1 - 0).toNat 0
    ((ps.length : ℤ) - 1) (le_refl _) (by omega) (by omega) (by omega)
    (by intro j hj; omega)
    (by intro j hj hjl; omega)
  rw [show ((ps.length : ℤ) - 1) + 1 = (ps.length : ℤ) by ring] at h
  rw [h]
  omega

theorem prefixPositions_mono (sizes : List ℚ) (spacing : ℚ)
    (hnn : ∀ k, k < sizes.length → 0 ≤ sizes.getD k 0 + spacing) :
    ∀ i j : ℕ, i ≤ j → j < (buildPrefixPositions sizes spacing).length →
      (buildPrefixPositions sizes spacing).getD i 0 ≤ (buildPrefixPositions sizes spacing).getD j 0 := by
  intro i j hij hj
  rw [length_buildPrefixPositions] at hj
  rw [buildPrefixPositions_getD sizes spacing i (by omega),
    buildPrefixPositions_getD sizes spacing j hj]
  exact startPos_mono sizes spacing hnn i j hij (by omega)

/-- **C1** (amended: the size-plus-spacing of every item is assumed positive, so
that the stored start positions are strictly increasing; with zero-size items
and zero spacing the claim fails, see the counterexample).  `_posToFirstIndex`
returns 0 for any position `≤ 0`; for any position `≥ 0` it returns the
greatest index whose start position is `≤` the queried position (exact boundary
equality selects the item whose start equals the query); and for every `i > 0`,
`locate(start[i]) = i` while `locate(start[i] - ε) = i - 1` for all sufficiently
small `ε > 0`. -/
theorem C1_posToFirstIndex_locate (sizes : List ℚ) (spacing : ℚ)
    (hpos : ∀ k, k < sizes.length → 0 < sizes.getD k 0 + spacing) :
    (∀ pos : ℚ, pos ≤ 0 → posToFirstIndex (buildPrefixPositions sizes spacing) pos = 0) ∧
    (∀ pos : ℚ, 0 ≤ pos → 0 < sizes.length →
        posToFirstIndex (buildPrefixPositions sizes spacing) pos < sizes.length ∧
        (buildPrefixPositions sizes spacing).getD
            (posToFirstIndex (buildPrefixPositions sizes spacing) pos) 0 ≤ pos ∧
        ∀ j, j < sizes.length → (buildPrefixPositions sizes spacing).getD j 0 ≤ pos →
          j ≤ posToFirstIndex (buildPrefixPositions sizes spacing) pos) ∧
    (∀ i, 0 < i → i < sizes.length →
        posToFirstIndex (buildPrefixPositions sizes spacing)
            ((buildPrefixPositions sizes spacing).getD i 0) = i ∧
        ∃ δ : ℚ, 0 < δ ∧ ∀ ε : ℚ, 0 < ε → ε < δ →
          posToFirstIndex (buildPrefixPositions sizes spacing)
              ((buildPrefixPositions sizes spacing).getD i 0 - ε) = i - 1) := by
  have hnn : ∀ k, k < sizes.length → 0 ≤ sizes.getD k 0 + spacing :=
    fun k hk => le_of_lt (hpos k hk)
  have hmono := prefixPositions_mono sizes spacing hnn
  have hlen := length_buildPrefixPositions sizes spacing
  have hget : ∀ j, j < sizes.length →
      (buildPrefixPositions sizes spacing).getD j 0 = startPos sizes spacing j :=
    fun j hj => buildPrefixPositions_getD sizes spacing j hj
  refine ⟨fun pos h0 => by unfold posToFirstIndex; rw [if_pos h0], ?_, ?_⟩
  · intro pos hpos0 hn
    rcases eq_or_lt_of_le hpos0 with heq | hlt
    · have hz : posToFirstIndex (buildPrefixPositions sizes spacing) pos = 0 := by
        unfold posToFirstIndex
        rw [if_pos (le_of_eq heq.symm)]
      refine ⟨by omega, ?_, ?_⟩
      · rw [hz, hget 0 hn, startPos_zero]
        exact hpos0
      · intro j hj hle
        rw [hget j hj] at hle
        by_contra hgt
        have h1 : startPos sizes spacing 0 < startPos sizes spacing j :=
          startPos_strict sizes spacing hpos 0 j (by omega) (by omega)
        rw [startPos_zero] at h1
        rw [← heq] at hle
        linarith
    · rw [posToFirstIndex_eq_upper _ pos hmono hlt]
      have hub := upperIdx_le_length pos (buildPrefixPositions sizes spacing)
      rw [hlen] at hub
      have hu1 : 1 ≤ upperIdx pos (buildPrefixPositions sizes spacing) := by
        by_contra h
        have h0 : upperIdx pos (buildPrefixPositions sizes spacing) = 0 := by omega
        have := lt_getD_upperIdx pos (buildPrefixPositions sizes spacing) (by omega)
        rw [h0, hget 0 hn, startPos_zero] at this
        linarith
      refine ⟨by omega, ?_, ?_⟩
      · exact getD_le_of_lt_upperIdx pos _ _ (by omega)
      · intro j hj hle
        by_contra hgt
        have hju : upperIdx pos (buildPrefixPositions sizes spacing) ≤ j := by omega
        have hul : upperIdx pos (buildPrefixPositions sizes spacing) <
            (buildPrefixPositions sizes spacing).length := by omega
        have h1 := lt_getD_upperIdx pos (buildPrefixPositions sizes spacing) hul
        have h2 := hmono (upperIdx pos (buildPrefixPositions sizes spacing)) j hju (by omega)
        linarith
  · intro i hi0 hil
    have hpi : (buildPrefixPositions sizes spacing).getD i 0 = startPos sizes spacing i :=
      hget i hil
    have hipos : 0 < startPos sizes spacing i := by
      have := startPos_strict sizes spacing hpos 0 i hi0 (by omega)
      rwa [startPos_zero] at this
    constructor
    · rw [hpi, posToFirstIndex_eq_upper _ _ hmono hipos]
      have : upperIdx (startPos sizes spacing i) (buildPrefixPositions sizes spacing) = i + 1 := by
        apply upperIdx_unique
        · omega
        · intro j hj
          rw [hget j (by omega)]
          exact startPos_mono sizes spacing hnn j i (by omega) (by omega)
        · intro hlt
          rw [hget (i + 1) (by omega)]
          exact startPos_strict sizes spacing hpos i (i + 1) (by omega) (by omega)
      rw [this]
      omega
    · refine ⟨sizes.getD (i - 1) 0 + spacing, hpos (i - 1) (by omega), ?_⟩
      intro ε hε hεδ
      have hsucc := startPos_succ sizes spacing (i - 1) (by omega)
      rw [show i - 1 + 1 = i by omega] at hsucc
      have hprev0 : 0 ≤ startPos sizes spacing (i - 1) :=
        startPos_nonneg sizes spacing hnn (i - 1) (by omega)
      have hppos : 0 < startPos sizes spacing i - ε := by
        rw [hsucc]; linarith
      rw [hpi, posToFirstIndex_eq_upper _ _ hmono hppos]
      have : upperIdx (startPos sizes spacing i - ε) (buildPrefixPositions sizes spacing) = i := by
        apply upperIdx_unique
        · omega
        · intro j hj
          rw [hget j (by omega)]
          have : startPos sizes spacing j ≤ startPos sizes spacing (i - 1) :=
            startPos_mono sizes spacing hnn j (i - 1) (by omega) (by omega)
          rw [hsucc]
          linarith
        · intro hlt
          rw [hget i hil]
          linarith
      rw [this]

/-- **C1 counterexample**: with a zero-size item and zero spacing
(sizes `[0, 5]`), the start table is `[0, 0]`; the claimed
`locate(start[i]) = i` fails at `i = 1`, where the lookup returns 0. -/
theorem C1_counterexample :
    posToFirstIndex (buildPrefixPositions [0, 5] 0)
      ((buildPrefixPositions [0, 5] 0).getD 1 0) = 0 ∧ (0 : ℕ) ≠ 1 := by
  constructor
  · norm_num [buildPrefixPositions, buildPrefixAux, posToFirstIndex]
  · decide

/-- **C1 witness**: the amended theorem applied to the concrete dynamic list of
sizes `[50, 50, 50]` with spacing 0 (start table `[0, 50, 100]`):
`locate(start[2]) = locate(100) = 2`. -/
theorem C1_witness :
    posToFirstIndex (buildPrefixPositions [50, 50, 50] 0)
      ((buildPrefixPositions [50, 50, 50] 0).getD 2 0) = 2 :=
  ((C1_posToFirstIndex_locate [50, 50, 50] 0
      (by intro k hk; simp at hk; interval_cases k <;> norm_num)).2.2
    2 (by norm_num) (by norm_num)).1

theorem le_scanEnd (ps : List ℚ) (endPos : ℚ) : ∀ e, e ≤ scanEnd ps endPos e := by
  have H : ∀ n e, ps.length - e ≤ n → e ≤ scanEnd ps endPos e := by
    intro n
    induction n with
    | zero =>
      intro e he
      rw [scanEnd, if_neg (by omega)]
    | succ n ih =>
      intro e he
      rw [scanEnd]
      by_cases h : e < ps.length
      · rw [if_pos h]
        by_cases h2 : endPos ≤ ps.getD e 0
        · rw [if_pos h2]
        · rw [if_neg h2]
          exact le_trans (by omega) (ih (e + 1) (by omega))
      · rw [if_neg h]
  intro e
  exact H (ps.length - e) e (le_refl _)

theorem lt_scanEnd (ps : List ℚ) (endPos : ℚ) (i : ℕ) (hi : i < ps.length) :
    ∀ e, e ≤ i → (∀ j, e ≤ j → j ≤ i → ps.getD j 0 < endPos) →
      i < scanEnd ps endPos e := by
  have H : ∀ n e, ps.length - e ≤ n → e ≤ i →
      (∀ j, e ≤ j → j ≤ i → ps.getD j 0 < endPos) → i < scanEnd ps endPos e := by
    intro n
    induction n with
    | zero => intro e he hei _; omega
    | succ n ih =>
      intro e he hei hall
      have hel : e < ps.length := by omega
      rw [scanEnd, if_pos hel]
      have hne : ¬ endPos ≤ ps.getD e 0 := not_le.mpr (hall e (le_refl _) hei)
      rw [if_neg hne]
      rcases Nat.eq_or_lt_of_le hei with heq | hlt
      · subst heq
        exact lt_of_lt_of_le (Nat.lt_succ_self e) (le_scanEnd ps endPos (e + 1))
      · exact ih (e + 1) (by omega) (by omega) (fun j h1 h2 => hall j (by omega) h2)
  intro e he hall
  exact H (ps.length - e) e (le_refl _) he hall

/-- **C2** (amended: coverage is guaranteed for every item whose start lies
strictly before the viewport's far edge and whose start-plus-size-plus-spacing
lies strictly past the scroll position; an item whose closed span merely
touches a viewport edge can be excluded, see the counterexample).  For every
prefix table of non-negative sizes with non-negative spacing, every
non-negative scroll position and every buffer, such an item index lies inside
the half-open range returned by `_calcVisibleRange`. -/
theorem C2_calcVisibleRange_covers (sizes : List ℚ) (spacing viewport pos : ℚ) (buffer : ℕ)
    (hsz : ∀ k, k < sizes.length → 0 ≤ sizes.getD k 0)
    (hsp : 0 ≤ spacing) (hpos0 : 0 ≤ pos)
    (i : ℕ) (hi : i < sizes.length)
    (hlow : pos < (buildPrefixPositions sizes spacing).getD i 0 + (sizes.getD i 0 + spacing))
    (hhigh : (buildPrefixPositions sizes spacing).getD i 0 < pos + viewport) :
    (calcVisibleRange (buildPrefixPositions sizes spacing) viewport buffer pos).1 ≤ i ∧
    i < (calcVisibleRange (buildPrefixPositions sizes spacing) viewport buffer pos).2 := by
  have hnn : ∀ k, k < sizes.length → 0 ≤ sizes.getD k 0 + spacing := by
    intro k hk
    have := hsz k hk
    linarith
  have hmono := prefixPositions_mono sizes spacing hnn
  have hlen := length_buildPrefixPositions sizes spacing
  have hget : ∀ j, j < sizes.length →
      (buildPrefixPositions sizes spacing).getD j 0 = startPos sizes spacing j :=
    fun j hj => buildPrefixPositions_getD sizes spacing j hj
  have hfirst_le : posToFirstIndex (buildPrefixPositions sizes spacing) pos ≤ i := by
    rcases le_or_lt pos 0 with h0 | h0
    · unfold posToFirstIndex
      rw [if_pos h0]
      omega
    · rw [posToFirstIndex_eq_upper _ pos hmono h0]
      have hub := upperIdx_le_length pos (buildPrefixPositions sizes spacing)
      by_contra hgt
      have hi1 : i + 1 < upperIdx pos (buildPrefixPositions sizes spacing) := by omega
      have hle := getD_le_of_lt_upperIdx pos (buildPrefixPositions sizes spacing) (i + 1) hi1
      have hi1len : i + 1 < sizes.length := by omega
      rw [hget (i + 1) hi1len, startPos_succ sizes spacing i hi, ← hget i hi] at hle
      linarith
  constructor
  · unfold calcVisibleRange
    rw [if_neg (by omega)]
    exact le_trans (Nat.sub_le _ _) hfirst_le
  · unfold calcVisibleRange
    rw [if_neg (by omega)]
    have hscan : i < scanEnd (buildPrefixPositions sizes spacing) (pos + viewport)
        (posToFirstIndex (buildPrefixPositions sizes spacing) pos) := by
      apply lt_scanEnd _ _ i (by omega) _ hfirst_le
      intro j h1 h2
      have := hmono j i h2 (by omega)
      linarith
    simp only []
    omega

/-- **C2 counterexample**: sizes `[50, 50, 50]`, spacing 0, viewport 100,
position 0, buffer 0.  Item 2's span `[100, 150]` intersects the closed
viewport interval `[0, 100]` (touching at 100), but the returned range is
`[0, 2)`, which excludes index 2. -/
theorem C2_counterexample :
    (buildPrefixPositions [50, 50, 50] 0).getD 2 0 ≤ 0 + 100 ∧
    (0 : ℚ) ≤ (buildPrefixPositions [50, 50, 50] 0).getD 2 0 +
      ([50, 50, 50] : List ℚ).getD 2 0 ∧
    ¬ 2 < (calcVisibleRange (buildPrefixPositions [50, 50, 50] 0) 100 0 0).2 := by
  have hps : buildPrefixPositions [50, 50, 50] 0 = [0, 50, 100] := by
    norm_num [buildPrefixPositions, buildPrefixAux]
  refine ⟨by rw [hps]; norm_num, by rw [hps]; norm_num, ?_⟩
  rw [hps]
  have h1 : posToFirstIndex [0, 50, 100] 0 = 0 := by
    norm_num [posToFirstIndex]
  have h2 : scanEnd [(0 : ℚ), 50, 100] (0 + 100) 0 = 2 := by
    rw [scanEnd]; norm_num
    rw [scanEnd]; norm_num
    rw [scanEnd]; norm_num
  simp only [calcVisibleRange, List.length_cons, List.length_nil, h1, h2]
  norm_num

/-- **C2 witness**: the amended theorem applied to sizes `[50, 50, 50]`,
spacing 0, viewport 80, position 0, buffer 0, item 1 (span `[50, 100]`
overlaps the viewport `[0, 80]`): index 1 lies in the returned range. -/
theorem C2_witness :
    (calcVisibleRange (buildPrefixPositions [50, 50, 50] 0) 80 0 0).1 ≤ 1 ∧
    1 < (calcVisibleRange (buildPrefixPositions [50, 50, 50] 0) 80 0 0).2 :=
  C2_calcVisibleRange_covers [50, 50, 50] 0 80 0 0
    (by intro k hk; simp at hk; interval_cases k <;> norm_num)
    (by norm_num) (by norm_num) 1 (by norm_num)
    (by norm_num [buildPrefixPositions, buildPrefixAux])
    (by norm_num [buildPrefixPositions, buildPrefixAux])

theorem list_ext_getD {α : Type} (dflt : α) (l₁ l₂ : List α) (hlen : l₁.length = l₂.length)
    (h : ∀ s, s < l₁.length → l₁.getD s dflt = l₂.getD s dflt) : l₁ = l₂ := by
  apply List.ext_getElem hlen
  intro i h1 h2
  have hi := h i h1
  rwa [List.getD_eq_getElem _ _ h1, List.getD_eq_getElem _ _ h2] at hi

theorem length_layoutSlotsAll (total first : ℕ) (states : List SlotState) :
    (layoutSlotsAll total first states).length = states.length := by
  simp [layoutSlotsAll]

theorem layoutSlotsAll_getD (total first : ℕ) (states : List SlotState) (s : ℕ)
    (hs : s < states.length) :
    (layoutSlotsAll total first states).getD s SlotState.inactive = bindSpec total first s := by
  have hl : s < (layoutSlotsAll total first states).length := by
    rwa [length_layoutSlotsAll]
  rw [List.getD_eq_getElem _ _ hl]
  simp [layoutSlotsAll, List.getElem_mapIdx]

theorem length_bindRange (total first : ℕ) :
    ∀ cnt (states : List SlotState) (lo : ℕ),
      (bindRange total first states lo cnt).length = states.length := by
  intro cnt
  induction cnt with
  | zero => intro states lo; rfl
  | succ n ih =>
    intro states lo
    rw [bindRange, ih]
    simp

theorem bindRange_getD (total first : ℕ) :
    ∀ cnt (states : List SlotState) (lo s : ℕ), s < states.length →
      (bindRange total first states lo cnt).getD s SlotState.inactive =
        if lo ≤ s ∧ s < lo + cnt then bindSpec total first s
        else states.getD s SlotState.inactive := by
  intro cnt
  induction cnt with
  | zero =>
    intro states lo s hs
    rw [bindRange, if_neg (by omega)]
  | succ n ih =>
    intro states lo s hs
    rw [bindRange, ih _ (lo + 1) s (by simpa using hs)]
    by_cases h1 : lo + 1 ≤ s ∧ s < lo + 1 + n
    · rw [if_pos h1, if_pos (by omega)]
    · rw [if_neg h1]
      by_cases h2 : s = lo
      · subst h2
        rw [if_pos (by omega), List.getD_eq_getElem _ _ (by simpa using hs)]
        simp [List.getElem_set, hs]
      · rw [if_neg (by omega)]
        rw [List.getD, List.getD]
        rw [List.get?_eq_getElem?, List.get?_eq_getElem?,
          List.getElem?_set_ne (fun hh => h2 hh.symm)]

theorem length_rotateFwd {α : Type} (l : List α) (d : ℕ) :
    (rotateFwd l d).length = l.length := by
  simp [rotateFwd]
  omega

theorem length_rotateBwd {α : Type} (l : List α) (d : ℕ) :
    (rotateBwd l d).length = l.length := by
  simp [rotateBwd]

theorem rotSplit_perm {α : Type} (l : List α) (k : ℕ) :
    (l.drop k ++ l.take k).Perm l :=
  (List.perm_append_comm).trans (by rw [List.take_append_drop])

theorem rotateFwd_perm {α : Type} (l : List α) (d : ℕ) : (rotateFwd l d).Perm l :=
  rotSplit_perm l d

theorem rotateBwd_perm {α : Type} (l : List α) (d : ℕ) : (rotateBwd l d).Perm l :=
  rotSplit_perm l (l.length - d)

theorem rotateFwd_getD_lo {α : Type} (l : List α) (d s : ℕ) (dflt : α)
    (hd : d ≤ l.length) (hs : s < l.length - d) :
    (rotateFwd l d).getD s dflt = l.getD (s + d) dflt := by
  have h1 : s < (l.drop d).length := by simp; omega
  have h2 : s < (rotateFwd l d).length := by rw [length_rotateFwd]; omega
  have h3 : s + d < l.length := by omega
  rw [List.getD_eq_getElem _ _ h2, List.getD_eq_getElem _ _ h3]
  show (l.drop d ++ l.take d)[s] = l[s + d]
  rw [List.getElem_append_left h1, List.getElem_drop]
  congr 1
  omega

theorem rotateFwd_getD_hi {α : Type} (l : List α) (d s : ℕ) (dflt : α)
    (hd : d ≤ l.length) (hlo : l.length - d ≤ s) (hs : s < l.length) :
    (rotateFwd l d).getD s dflt = l.getD (s - (l.length - d)) dflt := by
  have h2 : s < (rotateFwd l d).length := by rw [length_rotateFwd]; omega
  have hdl : (l.drop d).length = l.length - d := by simp
  have h4 : s - (l.length - d) < (l.take d).length := by simp; omega
  have h5 : s - (l.length - d) < l.length := by omega
  rw [List.getD_eq_getElem _ _ h2, List.getD_eq_getElem _ _ h5]
  show (l.drop d ++ l.take d)[s] = l[s - (l.length - d)]
  rw [List.getElem_append_right (by omega : (l.drop d).length ≤ s)]
  rw [List.getElem_take]
  congr 1
  omega

theorem rotateBwd_getD_lo {α : Type} (l : List α) (d s : ℕ) (dflt : α)
    (hd : d ≤ l.length) (hs : s < d) :
    (rotateBwd l d).getD s dflt = l.getD (l.length - d + s) dflt := by
  have h1 : s < (l.drop (l.length - d)).length := by simp; omega
  have h2 : s < (rotateBwd l d).length := by rw [length_rotateBwd]; omega
  have h3 : l.length - d + s < l.length := by omega
  rw [List.getD_eq_getElem _ _ h2, List.getD_eq_getElem _ _ h3]
  show (l.drop (l.length - d) ++ l.take (l.length - d))[s] = l[l.length - d + s]
  rw [List.getElem_append_left h1, List.getElem_drop]

theorem rotateBwd_getD_hi {α : Type} (l : List α) (d s : ℕ) (dflt : α)
    (hd : d ≤ l.length) (hlo : d ≤ s) (hs : s < l.length) :
    (rotateBwd l d).getD s dflt = l.getD (s - d) dflt := by
  have h2 : s < (rotateBwd l d).length := by rw [length_rotateBwd]; omega
  have hdl : (l.drop (l.length - d)).length = d := by simp; omega
  have h4 : s - d < (l.take (l.length - d)).length := by simp; omega
  have h5 : s - d < l.length := by omega
  rw [List.getD_eq_getElem _ _ h2, List.getD_eq_getElem _ _ h5]
  show (l.drop (l.length - d) ++ l.take (l.length - d))[s] = l[s - d]
  rw [List.getElem_append_right (by omega : (l.drop (l.length - d)).length ≤ s)]
  rw [List.getElem_take]
  congr 1
  omega

/-- **C3**: starting from a well-formed window (slot `s` bound to item
`slotFirstIndex + s` when in range, deactivated otherwise), for every
`newFirstIndex` with `0 < |newFirstIndex - slotFirstIndex| < _slots`, the
incremental path of `_updateVisible` (rotate the slot arrays by the shift and
rebind only the newly exposed slots) produces exactly the slot-to-item
assignment of the full-relayout path: slot `s` is bound to item
`newFirstIndex + s` when that index is `< totalCount` and deactivated
otherwise; and the rotation preserves the multiset of slot nodes. -/
theorem C3_updateVisible_refinement (total S oldFirst newFirst : ℕ)
    (nodes : List ℕ) (states : List SlotState)
    (hn : nodes.length = S) (hs : states.length = S)
    (hwf : ∀ s, s < S → states.getD s SlotState.inactive = bindSpec total oldFirst s)
    (hne : newFirst ≠ oldFirst)
    (hlt : ((newFirst : ℤ) - (oldFirst : ℤ)).natAbs < S) :
    (updateVisibleFrom total newFirst false oldFirst nodes states).2.2 =
      (updateVisibleFrom total newFirst true oldFirst nodes states).2.2 ∧
    (∀ s, s < S →
      (updateVisibleFrom total newFirst false oldFirst nodes states).2.2.getD s
        SlotState.inactive = bindSpec total newFirst s) ∧
    ((updateVisibleFrom total newFirst false oldFirst nodes states).2.1).Perm nodes ∧
    (updateVisibleFrom total newFirst false oldFirst nodes states).1 = newFirst := by
  have hfull : (updateVisibleFrom total newFirst true oldFirst nodes states).2.2 =
      layoutSlotsAll total newFirst states := by
    simp [updateVisibleFrom]
  have habs : ¬ (((newFirst : ℤ) - (oldFirst : ℤ)).natAbs ≥ states.length) := by omega
  by_cases hgt : newFirst > oldFirst
  · have hd : newFirst - oldFirst ≤ S := by omega
    have hdpos : 0 < newFirst - oldFirst := by omega
    have hstep : updateVisibleFrom total newFirst false oldFirst nodes states =
        (newFirst, rotateFwd nodes (newFirst - oldFirst),
          bindRange total newFirst (rotateFwd states (newFirst - oldFirst))
            (states.length - (newFirst - oldFirst)) (newFirst - oldFirst)) := by
      rw [updateVisibleFrom]
      simp only [if_neg hne, if_neg habs, if_pos hgt, Bool.false_eq_true, if_false]
    have hkey : ∀ s, s < S →
        (updateVisibleFrom total newFirst false oldFirst nodes states).2.2.getD s
          SlotState.inactive = bindSpec total newFirst s := by
      intro s hsS
      rw [hstep]
      simp only []
      rw [bindRange_getD total newFirst _ _ _ _ (by rw [length_rotateFwd]; omega)]
      by_cases hcase : states.length - (newFirst - oldFirst) ≤ s ∧
          s < states.length - (newFirst - oldFirst) + (newFirst - oldFirst)
      · rw [if_pos hcase]
      · rw [if_neg hcase]
        rw [rotateFwd_getD_lo states (newFirst - oldFirst) s SlotState.inactive
          (by omega) (by omega)]
        rw [hwf (s + (newFirst - oldFirst)) (by omega)]
        unfold bindSpec
        rw [show oldFirst + (s + (newFirst - oldFirst)) = newFirst + s by omega]
    refine ⟨?_, hkey, ?_, ?_⟩
    · rw [hfull]
      apply list_ext_getD SlotState.inactive
      · rw [hstep]
        simp only []
        rw [length_bindRange, length_rotateFwd, length_layoutSlotsAll]
      · intro s hsl
        have hsS : s < S := by
          rw [hstep] at hsl
          simp only [] at hsl
          rw [length_bindRange, length_rotateFwd] at hsl
          omega
        rw [hkey s hsS, layoutSlotsAll_getD total newFirst states s (by omega)]
    · rw [hstep]
      exact rotateFwd_perm nodes _
    · rw [hstep]
  · have hlt2 : newFirst < oldFirst := by omega
    have hd : oldFirst - newFirst ≤ S := by omega
    have hstep : updateVisibleFrom total newFirst false oldFirst nodes states =
        (newFirst, rotateBwd nodes (oldFirst - newFirst),
          bindRange total newFirst (rotateBwd states (oldFirst - newFirst))
            0 (oldFirst - newFirst)) := by
      rw [updateVisibleFrom]
      simp only [if_neg hne, if_neg habs, if_neg hgt, Bool.false_eq_true, if_false]
    have hkey : ∀ s, s < S →
        (updateVisibleFrom total newFirst false oldFirst nodes states).2.2.getD s
          SlotState.inactive = bindSpec total newFirst s := by
      intro s hsS
      rw [hstep]
      simp only []
      rw [bindRange_getD total newFirst _ _ _ _ (by rw [length_rotateBwd]; omega)]
      by_cases hcase : 0 ≤ s ∧ s < 0 + (oldFirst - newFirst)
      · rw [if_pos hcase]
      · rw [if_neg hcase]
        rw [rotateBwd_getD_hi states (oldFirst - newFirst) s SlotState.inactive
          (by omega) (by omega) (by omega)]
        rw [hwf (s - (oldFirst - newFirst)) (by omega)]
        unfold bindSpec
        rw [show oldFirst + (s - (oldFirst - newFirst)) = newFirst + s by omega]
    refine ⟨?_, hkey, ?_, ?_⟩
    · rw [hfull]
      apply list_ext_getD SlotState.inactive
      · rw [hstep]
        simp only []
        rw [length_bindRange, length_rotateBwd, length_layoutSlotsAll]
      · intro s hsl
        have hsS : s < S := by
          rw [hstep] at hsl
          simp only [] at hsl
          rw [length_bindRange, length_rotateBwd] at hsl
          omega
        rw [hkey s hsS, layoutSlotsAll_getD total newFirst states s (by omega)]
    · rw [hstep]
      exact rotateBwd_perm nodes _
    · rw [hstep]

/-- **C3 witness**: a window of 3 slots over 10 items shifted from first index
0 to 1: the incremental rotation produces the same assignment as a full
relayout, binds slot `s` to item `1 + s`, and permutes the node ids. -/
theorem C3_witness :
    (updateVisibleFrom 10 1 false 0 [0, 1, 2]
        [SlotState.bound 0, SlotState.bound 1, SlotState.bound 2]).2.2 =
      (updateVisibleFrom 10 1 true 0 [0, 1, 2]
        [SlotState.bound 0, SlotState.bound 1, SlotState.bound 2]).2.2 ∧
    (∀ s, s < 3 →
      (updateVisibleFrom 10 1 false 0 [0, 1, 2]
        [SlotState.bound 0, SlotState.bound 1, SlotState.bound 2]).2.2.getD s
          SlotState.inactive = bindSpec 10 1 s) ∧
    ((updateVisibleFrom 10 1 false 0 [0, 1, 2]
        [SlotState.bound 0, SlotState.bound 1, SlotState.bound 2]).2.1).Perm [0, 1, 2] ∧
    (updateVisibleFrom 10 1 false 0 [0, 1, 2]
        [SlotState.bound 0, SlotState.bound 1, SlotState.bound 2]).1 = 1 :=
  C3_updateVisible_refinement 10 3 0 1 [0, 1, 2]
    [SlotState.bound 0, SlotState.bound 1, SlotState.bound 2]
    (by decide) (by decide) (by decide) (by decide) (by decide)

theorem flatten_decomp (ps : List (List ℕ)) (j : ℕ) (hj : j < ps.length) :
    (↑ps.flatten : Multiset ℕ) =
      ↑(ps.take j).flatten + (↑(ps.getD j []) + ↑(ps.drop (j + 1)).flatten) := by
  have h1 : ps = ps.take j ++ ps.getD j [] :: ps.drop (j + 1) := by
    rw [List.getD_eq_getElem _ _ hj, List.getElem_cons_drop, List.take_append_drop]
  conv_lhs => rw [h1]
  simp

theorem flatten_set_decomp (ps : List (List ℕ)) (j : ℕ) (hj : j < ps.length) (L : List ℕ) :
    (↑(ps.set j L).flatten : Multiset ℕ) =
      ↑(ps.take j).flatten + (↑L + ↑(ps.drop (j + 1)).flatten) := by
  rw [List.set_eq_take_append_cons_drop, if_pos hj]
  simp

theorem filterMap_decomp (l : List (Option ℕ)) (s : ℕ) (hs : s < l.length) :
    (↑(l.filterMap id) : Multiset ℕ) =
      ↑((l.take s).filterMap id) +
        (↑(l.getD s none).toList + ↑((l.drop (s + 1)).filterMap id)) := by
  have h1 : l = l.take s ++ l.getD s none :: l.drop (s + 1) := by
    rw [List.getD_eq_getElem _ _ hs, List.getElem_cons_drop, List.take_append_drop]
  conv_lhs => rw [h1]
  rcases l.getD s none with _ | v <;> simp

theorem filterMap_set_decomp (l : List (Option ℕ)) (s : ℕ) (hs : s < l.length)
    (v : Option ℕ) :
    (↑((l.set s v).filterMap id) : Multiset ℕ) =
      ↑((l.take s).filterMap id) + (↑v.toList + ↑((l.drop (s + 1)).filterMap id)) := by
  rw [List.set_eq_take_append_cons_drop, if_pos hs]
  rcases v with _ | v <;> simp

theorem poolPut_spec (sys : PoolSys) (nd : ℕ) (ty : ℤ)
    (h : 0 ≤ ty ∧ ty.toNat < sys.pools.length) :
    (↑(poolNodes (poolPut sys nd ty)) : Multiset ℕ) = ↑(poolNodes sys) + {nd} ∧
    (poolPut sys nd ty).nextId = sys.nextId ∧
    (poolPut sys nd ty).slotNodes = sys.slotNodes ∧
    (poolPut sys nd ty).slotTypes = sys.slotTypes ∧
    (poolPut sys nd ty).pools.length = sys.pools.length := by
  rw [poolPut, if_pos h]
  refine ⟨?_, rfl, rfl, rfl, by simp⟩
  unfold poolNodes
  rw [flatten_set_decomp sys.pools ty.toNat h.2, flatten_decomp sys.pools ty.toNat h.2]
  rw [show ((sys.pools.getD ty.toNat [] ++ [nd] : List ℕ) : Multiset ℕ) =
    ↑(sys.pools.getD ty.toNat []) + {nd} by
      rw [← Multiset.coe_singleton, ← Multiset.coe_add]]
  abel

theorem poolGet_spec (sys : PoolSys) (ty : ℕ) (h : ty < sys.pools.length) :
    ∃ nd sys2, poolGet sys ty = (some nd, sys2) ∧
      sys2.slotNodes = sys.slotNodes ∧ sys2.slotTypes = sys.slotTypes ∧
      sys2.pools.length = sys.pools.length ∧ sys.nextId ≤ sys2.nextId ∧
      (((↑(poolNodes sys) : Multiset ℕ) = ↑(poolNodes sys2) + {nd} ∧
          sys2.nextId = sys.nextId) ∨
        (poolNodes sys2 = poolNodes sys ∧ nd = sys.nextId ∧
          sys2.nextId = sys.nextId + 1)) := by
  rw [poolGet]
  rw [if_pos h]
  rcases hL : (sys.pools.getD ty []).getLast? with _ | nd
  · exact ⟨sys.nextId, _, rfl, rfl, rfl, rfl, by simp, Or.inr ⟨rfl, rfl, rfl⟩⟩
  · refine ⟨nd, _, rfl, rfl, rfl, by simp, le_refl _, Or.inl ⟨?_, rfl⟩⟩
    unfold poolNodes
    rw [flatten_set_decomp sys.pools ty h, flatten_decomp sys.pools ty h]
    have hne : sys.pools.getD ty [] ≠ [] := by
      intro he
      rw [he] at hL
      simp at hL
    have hlast : (sys.pools.getD ty []).getLast hne = nd := by
      rw [List.getLast?_eq_getLast _ hne] at hL
      exact Option.some.inj hL
    have hdec : sys.pools.getD ty [] = (sys.pools.getD ty []).dropLast ++ [nd] := by
      conv_lhs => rw [← List.dropLast_append_getLast hne]
      rw [hlast]
    conv_lhs => rw [hdec]
    rw [show (((sys.pools.getD ty []).dropLast ++ [nd] : List ℕ) : Multiset ℕ) =
      ↑(sys.pools.getD ty []).dropLast + {nd} by
        rw [← Multiset.coe_singleton, ← Multiset.coe_add]]
    abel

theorem acquireInto_spec (sys1 : PoolSys) (slot target : ℕ)
    (htarget : target < sys1.pools.length) :
    ∃ newNd sys2,
      acquireInto sys1 slot target =
        { sys2 with slotNodes := sys2.slotNodes.set slot (some newNd),
                    slotTypes := sys2.slotTypes.set slot (target : ℤ) } ∧
      sys2.slotNodes = sys1.slotNodes ∧ sys2.slotTypes = sys1.slotTypes ∧
      sys2.pools.length = sys1.pools.length ∧ sys1.nextId ≤ sys2.nextId ∧
      (((↑(poolNodes sys1) : Multiset ℕ) = ↑(poolNodes sys2) + {newNd} ∧
          sys2.nextId = sys1.nextId) ∨
        (poolNodes sys2 = poolNodes sys1 ∧ newNd = sys1.nextId ∧
          sys2.nextId = sys1.nextId + 1)) := by
  obtain ⟨nd, sys2, hget, h1, h2, h3, h4, h5⟩ := poolGet_spec sys1 target htarget
  refine ⟨nd, sys2, ?_, h1, h2, h3, h4, h5⟩
  rw [acquireInto, hget]

theorem getD_set_self {α : Type} (l : List α) (i : ℕ) (hi : i < l.length) (a d : α) :
    (l.set i a).getD i d = a := by
  rw [List.getD_eq_getElem _ _ (by simpa using hi)]
  simp [List.getElem_set]

theorem getD_set_ne {α : Type} (l : List α) (i j : ℕ) (h : i ≠ j) (a d : α) :
    (l.set i a).getD j d = l.getD j d := by
  rw [List.getD, List.getD, List.get?_eq_getElem?, List.get?_eq_getElem?,
    List.getElem?_set_ne h]

theorem install_preserve (numTypes S : ℕ) (sys sys1 : PoolSys) (slot target : ℕ)
    (hslot : slot < S) (htarget : target < numTypes)
    (hInv : PoolInv numTypes S sys)
    (hsn1 : sys1.slotNodes = sys.slotNodes) (hst1 : sys1.slotTypes = sys.slotTypes)
    (hpl1 : sys1.pools.length = numTypes) (hn1 : sys1.nextId = sys.nextId)
    (hM1 : (↑(poolNodes sys1) : Multiset ℕ) +
        ↑((sys.slotNodes.take slot).filterMap id) +
        ↑((sys.slotNodes.drop (slot + 1)).filterMap id) =
      ↑(poolNodes sys) + ↑(boundNodes sys)) :
    PoolInv numTypes S (acquireInto sys1 slot target) := by
  obtain ⟨hnodup, hbound, hpl, hsl, htl, hty⟩ := hInv
  have hslotlen : slot < sys.slotNodes.length := by omega
  obtain ⟨newNd, sys2, hF, hsn2, hst2, hpl2, hnle, hdisj⟩ :=
    acquireInto_spec sys1 slot target (by omega)
  rw [hF]
  have hPF : poolNodes { sys2 with
      slotNodes := sys2.slotNodes.set slot (some newNd),
      slotTypes := sys2.slotTypes.set slot (target : ℤ) } = poolNodes sys2 := rfl
  have hNF : ({ sys2 with
      slotNodes := sys2.slotNodes.set slot (some newNd),
      slotTypes := sys2.slotTypes.set slot (target : ℤ) } : PoolSys).nextId =
    sys2.nextId := rfl
  have hBF : (↑(boundNodes { sys2 with
      slotNodes := sys2.slotNodes.set slot (some newNd),
      slotTypes := sys2.slotTypes.set slot (target : ℤ) }) : Multiset ℕ) =
      ↑((sys.slotNodes.take slot).filterMap id) +
        (↑[newNd] + ↑((sys.slotNodes.drop (slot + 1)).filterMap id)) := by
    show (↑((sys2.slotNodes.set slot (some newNd)).filterMap id) : Multiset ℕ) = _
    rw [hsn2, hsn1]
    have := filterMap_set_decomp sys.slotNodes slot hslotlen (some newNd)
    simpa using this
  have hkey : (↑(poolNodes sys2) : Multiset ℕ) +
      (↑((sys.slotNodes.take slot).filterMap id) +
        (↑[newNd] + ↑((sys.slotNodes.drop (slot + 1)).filterMap id))) =
      ↑(poolNodes sys) + ↑(boundNodes sys) +
        (if sys2.nextId = sys1.nextId then 0 else {newNd}) := by
    rcases hdisj with ⟨hpm, hne⟩ | ⟨hpeq, hndeq, hn2⟩
    · rw [if_pos hne]
      calc (↑(poolNodes sys2) : Multiset ℕ) +
          (↑((sys.slotNodes.take slot).filterMap id) +
            (↑[newNd] + ↑((sys.slotNodes.drop (slot + 1)).filterMap id))) =
          (↑(poolNodes sys2) + {newNd}) +
            ↑((sys.slotNodes.take slot).filterMap id) +
            ↑((sys.slotNodes.drop (slot + 1)).filterMap id) := by
            rw [show ({newNd} : Multiset ℕ) = ↑[newNd] by simp]
            abel
        _ = ↑(poolNodes sys1) +
            ↑((sys.slotNodes.take slot).filterMap id) +
            ↑((sys.slotNodes.drop (slot + 1)).filterMap id) := by rw [← hpm]
        _ = ↑(poolNodes sys) + ↑(boundNodes sys) := hM1
        _ = ↑(poolNodes sys) + ↑(boundNodes sys) + 0 := by rw [add_zero]
    · rw [if_neg (by omega)]
      calc (↑(poolNodes sys2) : Multiset ℕ) +
          (↑((sys.slotNodes.take slot).filterMap id) +
            (↑[newNd] + ↑((sys.slotNodes.drop (slot + 1)).filterMap id))) =
          (↑(poolNodes sys1) +
            ↑((sys.slotNodes.take slot).filterMap id) +
            ↑((sys.slotNodes.drop (slot + 1)).filterMap id)) + {newNd} := by
            rw [hpeq, show ({newNd} : Multiset ℕ) = ↑[newNd] by simp]
            abel
        _ = ↑(poolNodes sys) + ↑(boundNodes sys) + {newNd} := by rw [hM1]
  refine ⟨?_, ?_, ?_, ?_, ?_, ?_⟩
  · rw [← Multiset.coe_nodup, ← Multiset.coe_add, hPF, hBF, hkey]
    rcases eq_or_ne sys2.nextId sys1.nextId with he | he
    · rw [if_pos he, add_zero, Multiset.coe_add, Multiset.coe_nodup]
      exact hnodup
    · rw [if_neg he, add_comm, Multiset.singleton_add, Multiset.nodup_cons]
      constructor
      · intro hmem
        rw [Multiset.coe_add, Multiset.mem_coe] at hmem
        have := hbound newNd hmem
        rcases hdisj with ⟨_, h⟩ | ⟨_, hndeq, _⟩
        · exact absurd h he
        · omega
      · rw [Multiset.coe_add, Multiset.coe_nodup]
        exact hnodup
  · intro nd hmem
    have hmem2 : nd ∈ (↑(poolNodes { sys2 with
        slotNodes := sys2.slotNodes.set slot (some newNd),
        slotTypes := sys2.slotTypes.set slot (target : ℤ) }) : Multiset ℕ) +
        ↑(boundNodes { sys2 with
          slotNodes := sys2.slotNodes.set slot (some newNd),
          slotTypes := sys2.slotTypes.set slot (target : ℤ) }) := by
      rw [Multiset.coe_add, Multiset.mem_coe]
      exact hmem
    rw [hPF, hBF, hkey] at hmem2
    rw [hNF]
    rcases eq_or_ne sys2.nextId sys1.nextId with he | he
    · rw [if_pos he, add_zero, Multiset.coe_add, Multiset.mem_coe] at hmem2
      have := hbound nd hmem2
      omega
    · rw [if_neg he, Multiset.mem_add] at hmem2
      rcases hdisj with ⟨_, h⟩ | ⟨_, hndeq, hn2⟩
      · exact absurd h he
      · rcases hmem2 with h2 | h2
        · rw [Multiset.coe_add, Multiset.mem_coe] at h2
          have := hbound nd h2
          omega
        · rw [Multiset.mem_singleton] at h2
          omega
  · show sys2.pools.length = numTypes
    omega
  · show (sys2.slotNodes.set slot (some newNd)).length = S
    rw [List.length_set, hsn2, hsn1]
    exact hsl
  · show (sys2.slotTypes.set slot (target : ℤ)).length = S
    rw [List.length_set, hst2, hst1]
    exact htl
  · intro s hs
    show ((sys2.slotNodes.set slot (some newNd)).getD s none).isSome →
      0 ≤ (sys2.slotTypes.set slot (target : ℤ)).getD s (-1) ∧
      ((sys2.slotTypes.set slot (target : ℤ)).getD s (-1)).toNat < numTypes
    rw [hsn2, hsn1, hst2, hst1]
    rcases eq_or_ne slot s with he | he
    · subst he
      rw [getD_set_self sys.slotTypes slot (by omega) _ _]
      intro _
      constructor
      · exact Int.natCast_nonneg target
      · rw [Int.toNat_natCast]
        exact htarget
    · rw [getD_set_ne sys.slotNodes slot s he _ _, getD_set_ne sys.slotTypes slot s he _ _]
      exact hty s hs

theorem layoutSingleSlotPool_eq_none (sys : PoolSys) (slot target : ℕ)
    (h : sys.slotNodes.getD slot none = none) :
    layoutSingleSlotPool sys slot target = acquireInto sys slot target := by
  unfold layoutSingleSlotPool
  rw [h]

theorem layoutSingleSlotPool_eq_reuse (sys : PoolSys) (slot target : ℕ) (nd : ℕ)
    (h : sys.slotNodes.getD slot none = some nd)
    (he : sys.slotTypes.getD slot (-1) = (target : ℤ)) :
    layoutSingleSlotPool sys slot target = sys := by
  unfold layoutSingleSlotPool
  rw [h]
  show (if sys.slotTypes.getD slot (-1) = (target : ℤ) then sys
    else acquireInto (if 0 ≤ sys.slotTypes.getD slot (-1)
      then poolPut sys nd (sys.slotTypes.getD slot (-1)) else sys) slot target) = sys
  rw [if_pos he]

theorem layoutSingleSlotPool_eq_swap (sys : PoolSys) (slot target : ℕ) (nd : ℕ)
    (h : sys.slotNodes.getD slot none = some nd)
    (hne : ¬ sys.slotTypes.getD slot (-1) = (target : ℤ)) :
    layoutSingleSlotPool sys slot target =
      acquireInto (if 0 ≤ sys.slotTypes.getD slot (-1)
        then poolPut sys nd (sys.slotTypes.getD slot (-1)) else sys) slot target := by
  unfold layoutSingleSlotPool
  rw [h]
  show (if sys.slotTypes.getD slot (-1) = (target : ℤ) then sys
    else acquireInto (if 0 ≤ sys.slotTypes.getD slot (-1)
      then poolPut sys nd (sys.slotTypes.getD slot (-1)) else sys) slot target) = _
  rw [if_neg hne]

theorem layoutSingleSlotPool_preserve (numTypes S : ℕ) (sys : PoolSys)
    (hInv : PoolInv numTypes S sys) (slot target : ℕ)
    (hslot : slot < S) (htarget : target < numTypes) :
    PoolInv numTypes S (layoutSingleSlotPool sys slot target) := by
  have hslotlen : slot < sys.slotNodes.length := by
    have := hInv.2.2.2.1
    omega
  rcases hcur : sys.slotNodes.getD slot none with _ | nd
  · rw [layoutSingleSlotPool_eq_none sys slot target hcur]
    apply install_preserve numTypes S sys sys slot target hslot htarget hInv rfl rfl
      hInv.2.2.1 rfl
    have hdec := filterMap_decomp sys.slotNodes slot hslotlen
    rw [hcur] at hdec
    rw [show ((none : Option ℕ).toList : List ℕ) = [] from rfl] at hdec
    unfold boundNodes
    rw [hdec, Multiset.coe_nil]
    abel
  · have hcv := hInv.2.2.2.2.2 slot hslot (by rw [hcur]; rfl)
    by_cases he : sys.slotTypes.getD slot (-1) = (target : ℤ)
    · rw [layoutSingleSlotPool_eq_reuse sys slot target nd hcur he]
      exact hInv
    · rw [layoutSingleSlotPool_eq_swap sys slot target nd hcur he, if_pos hcv.1]
      have hput := poolPut_spec sys nd (sys.slotTypes.getD slot (-1))
        ⟨hcv.1, by have := hInv.2.2.1; omega⟩
      apply install_preserve numTypes S sys _ slot target hslot htarget hInv
        hput.2.2.1 hput.2.2.2.1 (by rw [hput.2.2.2.2]; exact hInv.2.2.1) hput.2.1
      rw [hput.1]
      have hdec := filterMap_decomp sys.slotNodes slot hslotlen
      rw [hcur] at hdec
      rw [show ((some nd : Option ℕ).toList : List ℕ) = [nd] from rfl] at hdec
      unfold boundNodes
      rw [hdec, show ({nd} : Multiset ℕ) = ↑[nd] by simp]
      abel

theorem flatten_replicate_nil (n : ℕ) : (List.replicate n ([] : List ℕ)).flatten = [] := by
  induction n with
  | zero => rfl
  | succ m ih => simp [List.replicate_succ, ih]

theorem filterMap_replicate_none (n : ℕ) :
    (List.replicate n (none : Option ℕ)).filterMap id = [] := by
  induction n with
  | zero => rfl
  | succ m ih => simp [List.replicate_succ, ih]

theorem initPoolSys_inv (numTypes S : ℕ) : PoolInv numTypes S (initPoolSys numTypes S) := by
  refine ⟨?_, ?_, ?_, ?_, ?_, ?_⟩
  · show ((List.replicate numTypes ([] : List ℕ)).flatten ++
      (List.replicate S (none : Option ℕ)).filterMap id).Nodup
    rw [flatten_replicate_nil, filterMap_replicate_none]
    exact List.nodup_nil
  · intro nd hmem
    exfalso
    revert hmem
    show ¬ nd ∈ (List.replicate numTypes ([] : List ℕ)).flatten ++
      (List.replicate S (none : Option ℕ)).filterMap id
    rw [flatten_replicate_nil, filterMap_replicate_none]
    simp
  · simp [initPoolSys]
  · simp [initPoolSys]
  · simp [initPoolSys]
  · intro s hs
    show ((List.replicate S (none : Option ℕ)).getD s none).isSome → _
    rcases lt_or_ge s S with h | h
    · rw [List.getD_eq_getElem _ _ (by simpa using h)]
      simp
    · rw [List.getD_eq_default _ _ (by simpa using h)]
      simp

theorem runPool_inv (numTypes S : ℕ) : ∀ ops : List (ℕ × ℕ),
    (∀ op ∈ ops, op.1 < S ∧ op.2 < numTypes) →
    ∀ sys, PoolInv numTypes S sys → PoolInv numTypes S (runPool sys ops) := by
  intro ops
  induction ops with
  | nil => intro _ sys h; exact h
  | cons op rest ih =>
    intro hops sys h
    rw [runPool]
    exact ih (fun o ho => hops o (by simp [ho])) _
      (layoutSingleSlotPool_preserve numTypes S sys h op.1 op.2
        (hops op (by simp)).1 (hops op (by simp)).2)

/-- **C4** (amended: every requested slot index is within the slot array and
every requested type index is a recognized prefab type; an unrecognized type
makes the error path alias a node between a slot and a pool, see the
counterexample).  Across any sequence of multi-shape slot reconciliations
from the initial state, every display node is in exactly one of
{idle in exactly one per-type pool list, bound to exactly one slot} — no id
occurs twice across pools and slots — and the number of bound nodes never
exceeds the slot count. -/
theorem C4_pool_conservation (numTypes S : ℕ) (ops : List (ℕ × ℕ))
    (hops : ∀ op ∈ ops, op.1 < S ∧ op.2 < numTypes) :
    PoolInv numTypes S (runPool (initPoolSys numTypes S) ops) ∧
    (boundNodes (runPool (initPoolSys numTypes S) ops)).length ≤ S := by
  have h := runPool_inv numTypes S ops hops _ (initPoolSys_inv numTypes S)
  refine ⟨h, ?_⟩
  have h2 := h.2.2.2.1
  calc (boundNodes (runPool (initPoolSys numTypes S) ops)).length
      ≤ (runPool (initPoolSys numTypes S) ops).slotNodes.length :=
        List.length_filterMap_le _ _
    _ = S := h2

/-- **C4 counterexample**: with one slot and one prefab type, binding the
slot to type 0 and then requesting the unrecognized type 1 releases the
slot's node to the pool but leaves the slot still referencing it: node 0 ends
up both idle in the pool and bound to the slot. -/
theorem C4_counterexample :
    poolNodes (runPool (initPoolSys 1 1) [(0, 0), (0, 1)]) = [0] ∧
    boundNodes (runPool (initPoolSys 1 1) [(0, 0), (0, 1)]) = [0] ∧
    ¬ (poolNodes (runPool (initPoolSys 1 1) [(0, 0), (0, 1)]) ++
        boundNodes (runPool (initPoolSys 1 1) [(0, 0), (0, 1)])).Nodup := by
  refine ⟨rfl, rfl, ?_⟩
  decide

/-- **C4 witness**: the amended theorem applied to one slot, two prefab
types, and the reconciliation sequence that binds the slot to type 0 and
then swaps it to type 1: conservation holds. -/
theorem C4_witness :
    PoolInv 2 1 (runPool (initPoolSys 2 1) [(0, 0), (0, 1)]) ∧
    (boundNodes (runPool (initPoolSys 2 1) [(0, 0), (0, 1)])).length ≤ 1 :=
  C4_pool_conservation 2 1 [(0, 0), (0, 1)] (by decide)

theorem runRefreshWrites_eq_changes (cur : RefreshState) (ws : List (RefreshState × ℚ)) :
    (runRefreshWrites cur ws).2 = refreshChanges cur ws := by
  induction ws generalizing cur with
  | nil => rfl
  | cons w ws ih =>
    obtain ⟨s, off⟩ := w
    rw [runRefreshWrites, refreshChanges]
    by_cases h : cur = s
    · simp only [updateRefreshState, if_pos h]
      exact ih cur
    · simp only [updateRefreshState, if_neg h]
      rw [ih s]

theorem runLoadMoreWrites_eq_changes (cur : LoadMoreState)
    (ws : List (LoadMoreState × ℚ)) :
    (runLoadMoreWrites cur ws).2 = loadMoreChanges cur ws := by
  induction ws generalizing cur with
  | nil => rfl
  | cons w ws ih =>
    obtain ⟨s, off⟩ := w
    rw [runLoadMoreWrites, loadMoreChanges]
    by_cases h : cur = s
    · simp only [updateLoadMoreState, if_pos h]
      exact ih cur
    · simp only [updateLoadMoreState, if_neg h]
      rw [ih s]

theorem refreshChanges_chain (cur : RefreshState) (ws : List (RefreshState × ℚ)) :
    List.Chain' (fun a b => a.1 ≠ b.1) (refreshChanges cur ws) ∧
    ∀ x ∈ (refreshChanges cur ws).head?, x.1 ≠ cur := by
  induction ws generalizing cur with
  | nil => exact ⟨List.chain'_nil, by simp [refreshChanges]⟩
  | cons w ws ih =>
    obtain ⟨s, off⟩ := w
    rw [refreshChanges]
    by_cases h : cur = s
    · rw [if_pos h]
      subst h
      exact ih cur
    · rw [if_neg h]
      refine ⟨?_, ?_⟩
      · rw [List.chain'_cons']
        exact ⟨fun y hy => Ne.symm ((ih s).2 y hy), (ih s).1⟩
      · intro x hx
        simp only [List.head?_cons, Option.mem_def, Option.some.injEq] at hx
        rw [← hx]
        exact fun he => h he.symm

theorem loadMoreChanges_chain (cur : LoadMoreState) (ws : List (LoadMoreState × ℚ)) :
    List.Chain' (fun a b => a.1 ≠ b.1) (loadMoreChanges cur ws) ∧
    ∀ x ∈ (loadMoreChanges cur ws).head?, x.1 ≠ cur := by
  induction ws generalizing cur with
  | nil => exact ⟨List.chain'_nil, by simp [loadMoreChanges]⟩
  | cons w ws ih =>
    obtain ⟨s, off⟩ := w
    rw [loadMoreChanges]
    by_cases h : cur = s
    · rw [if_pos h]
      subst h
      exact ih cur
    · rw [if_neg h]
      refine ⟨?_, ?_⟩
      · rw [List.chain'_cons']
        exact ⟨fun y hy => Ne.symm ((ih s).2 y hy), (ih s).1⟩
      · intro x hx
        simp only [List.head?_cons, Option.mem_def, Option.some.injEq] at hx
        rw [← hx]
        exact fun he => h he.symm

/-- **C5**: both state-change mechanisms are strictly edge-triggered: a single
write fires its callback exactly when the written state differs from the
current one; over any write sequence the fired callbacks are exactly the
writes that change the stored value, so consecutive callback invocations
always carry distinct state values. -/
theorem C5_fsm_edge_triggering :
    (∀ (cur s : RefreshState) (off : ℚ),
      (updateRefreshState cur s off).2 ≠ none ↔ s ≠ cur) ∧
    (∀ (cur s : LoadMoreState) (off : ℚ),
      (updateLoadMoreState cur s off).2 ≠ none ↔ s ≠ cur) ∧
    (∀ (cur : RefreshState) (ws : List (RefreshState × ℚ)),
      (runRefreshWrites cur ws).2 = refreshChanges cur ws ∧
      List.Chain' (fun a b => a.1 ≠ b.1) ((runRefreshWrites cur ws).2)) ∧
    (∀ (cur : LoadMoreState) (ws : List (LoadMoreState × ℚ)),
      (runLoadMoreWrites cur ws).2 = loadMoreChanges cur ws ∧
      List.Chain' (fun a b => a.1 ≠ b.1) ((runLoadMoreWrites cur ws).2)) := by
  refine ⟨?_, ?_, ?_, ?_⟩
  · intro cur s off
    unfold updateRefreshState
    by_cases h : cur = s
    · rw [if_pos h]
      simp [h]
    · rw [if_neg h]
      simp only [ne_eq, Option.some_ne_none, not_false_eq_true, true_iff]
      exact fun he => h he.symm
  · intro cur s off
    unfold updateLoadMoreState
    by_cases h : cur = s
    · rw [if_pos h]
      simp [h]
    · rw [if_neg h]
      simp only [ne_eq, Option.some_ne_none, not_false_eq_true, true_iff]
      exact fun he => h he.symm
  · intro cur ws
    refine ⟨runRefreshWrites_eq_changes cur ws, ?_⟩
    rw [runRefreshWrites_eq_changes cur ws]
    exact (refreshChanges_chain cur ws).1
  · intro cur ws
    refine ⟨runLoadMoreWrites_eq_changes cur ws, ?_⟩
    rw [runLoadMoreWrites_eq_changes cur ws]
    exact (loadMoreChanges_chain cur ws).1

theorem finishLoadMore_noop (st : GState) (b : Bool) (h : st.isLoadingMore = false) :
    finishLoadMore st b = st := by
  unfold finishLoadMore
  rw [if_pos h]

/-- **C10**: when no load-more is in progress (`_isLoadingMore` false),
`finishLoadMore` with either argument leaves the entire widget state unchanged
and fires no callback — in particular it does not touch the `_hasMore` flag. -/
theorem C10_finishLoadMore_noop (st : GState) (b : Bool)
    (h : st.isLoadingMore = false) : finishLoadMore st b = st :=
  finishLoadMore_noop st b h

/-- **C10 witness**: `finishLoadMore(false)` on the idle sample state is a
complete no-op. -/
theorem C10_witness : finishLoadMore pullState false = pullState :=
  C10_finishLoadMore_noop pullState false rfl

theorem jsRound_intCast (n : ℤ) : jsRound (n : ℚ) = (n : ℚ) := by
  unfold jsRound
  rw [add_comm, Int.floor_add_int]
  norm_num

theorem jsRound_idem (x : ℚ) : jsRound (jsRound x) = jsRound x :=
  jsRound_intCast ⌊x + 1 / 2⌋

theorem gUpdateRefreshState_state (st : GState) (s : RefreshState) (off : ℚ) :
    (gUpdateRefreshState st s off).refreshState = s := by
  unfold gUpdateRefreshState updateRefreshState
  by_cases h : st.refreshState = s <;> simp [h]

theorem gUpdateRefreshState_proj (st : GState) (s : RefreshState) (off : ℚ) :
    (gUpdateRefreshState st s off).pos = st.pos ∧
    (gUpdateRefreshState st s off).velocity = st.velocity ∧
    (gUpdateRefreshState st s off).isTouching = st.isTouching ∧
    (gUpdateRefreshState st s off).velSamples = st.velSamples ∧
    (gUpdateRefreshState st s off).pullOffset = st.pullOffset ∧
    (gUpdateRefreshState st s off).loadOffset = st.loadOffset ∧
    (gUpdateRefreshState st s off).loadMoreState = st.loadMoreState ∧
    (gUpdateRefreshState st s off).hasMore = st.hasMore ∧
    (gUpdateRefreshState st s off).isRefreshing = st.isRefreshing ∧
    (gUpdateRefreshState st s off).isLoadingMore = st.isLoadingMore ∧
    (gUpdateRefreshState st s off).pendingLoadMoreReset = st.pendingLoadMoreReset ∧
    (gUpdateRefreshState st s off).loadMoreLog = st.loadMoreLog := by
  unfold gUpdateRefreshState updateRefreshState
  by_cases h : st.refreshState = s <;> simp [h]

theorem gUpdateLoadMoreState_state (st : GState) (s : LoadMoreState) (off : ℚ) :
    (gUpdateLoadMoreState st s off).loadMoreState = s := by
  unfold gUpdateLoadMoreState updateLoadMoreState
  by_cases h : st.loadMoreState = s <;> simp [h]

theorem gUpdateLoadMoreState_proj (st : GState) (s : LoadMoreState) (off : ℚ) :
    (gUpdateLoadMoreState st s off).pos = st.pos ∧
    (gUpdateLoadMoreState st s off).velocity = st.velocity ∧
    (gUpdateLoadMoreState st s off).isTouching = st.isTouching ∧
    (gUpdateLoadMoreState st s off).velSamples = st.velSamples ∧
    (gUpdateLoadMoreState st s off).pullOffset = st.pullOffset ∧
    (gUpdateLoadMoreState st s off).loadOffset = st.loadOffset ∧
    (gUpdateLoadMoreState st s off).refreshState = st.refreshState ∧
    (gUpdateLoadMoreState st s off).hasMore = st.hasMore ∧
    (gUpdateLoadMoreState st s off).isRefreshing = st.isRefreshing ∧
    (gUpdateLoadMoreState st s off).isLoadingMore = st.isLoadingMore ∧
    (gUpdateLoadMoreState st s off).pendingRefreshReset = st.pendingRefreshReset ∧
    (gUpdateLoadMoreState st s off).refreshLog = st.refreshLog := by
  unfold gUpdateLoadMoreState updateLoadMoreState
  by_cases h : st.loadMoreState = s <;> simp [h]

/-- **C6**: for every drag-move processed while pull-refresh is enabled, no
refresh is in progress, the content is at or past the top boundary and the
delta pulls further past it: the position delta applied (before optional pixel
alignment) is the raw delta times
`resistance = 1 − min(overOffset/maxOffset, 1)·(1 − dampingRate)`, the
accumulated pull offset is `min(overOffset + |damped delta|, maxOffset)` —
hence clamped to the max offset — and the resulting refresh state is `READY`
exactly when the accumulated offset reaches the threshold, `PULLING`
otherwise. -/
theorem C6_onMove_pull_resistance (cfg : GConfig) (st : GState) (t delta : ℚ)
    (htouch : st.isTouching = true)
    (hen : cfg.enablePullRefresh = true)
    (href : st.isRefreshing = false)
    (hdir : if cfg.isVertical = true
      then st.pos ≤ min st.boundsMin st.boundsMax ∧ delta < 0
      else max st.boundsMin st.boundsMax ≤ st.pos ∧ 0 < delta) :
    (onMove cfg st t delta).pos =
      (if cfg.pixelAlign then jsRound (st.pos + delta * pullResistance cfg st)
       else st.pos + delta * pullResistance cfg st) ∧
    (onMove cfg st t delta).pullOffset =
      min (pullOver cfg st + |delta * pullResistance cfg st|)
        cfg.pullRefreshMaxOffset ∧
    (onMove cfg st t delta).pullOffset ≤ cfg.pullRefreshMaxOffset ∧
    (onMove cfg st t delta).refreshState =
      (if cfg.pullRefreshThreshold ≤
          min (pullOver cfg st + |delta * pullResistance cfg st|)
            cfg.pullRefreshMaxOffset
       then RefreshState.READY else RefreshState.PULLING) := by
  have hload : ¬ (cfg.enableLoadMore = true ∧ st.isLoadingMore = false ∧
      st.hasMore = true ∧
      (if cfg.isVertical = true
       then max st.boundsMin st.boundsMax ≤ st.pos ∧ 0 < delta
       else st.pos ≤ min st.boundsMin st.boundsMax ∧ delta < 0)) := by
    rcases hv : cfg.isVertical with _ | _
    · intro hc
      have h4 := hc.2.2.2
      rw [if_neg (by simp)] at h4
      rw [hv] at hdir
      rw [if_neg (by simp)] at hdir
      linarith [hdir.2, h4.2]
    · intro hc
      have h4 := hc.2.2.2
      rw [if_pos rfl] at h4
      rw [hv] at hdir
      rw [if_pos rfl] at hdir
      linarith [hdir.2, h4.2]
  unfold onMove
  rw [if_pos htouch]
  simp only [if_pos (And.intro hen (And.intro href hdir)), if_neg hload]
  unfold pullResistance pullOver setContentMainPos
  by_cases hth : cfg.pullRefreshThreshold ≤
      min ((if cfg.isVertical = true then min st.boundsMin st.boundsMax - st.pos
            else st.pos - max st.boundsMin st.boundsMax) +
          |delta * (1 - min ((if cfg.isVertical = true
                then min st.boundsMin st.boundsMax - st.pos
                else st.pos - max st.boundsMin st.boundsMax) /
              cfg.pullRefreshMaxOffset) 1 * (1 - cfg.pullDampingRate))|)
        cfg.pullRefreshMaxOffset
  · simp only [if_pos hth, gUpdateRefreshState_state,
      (gUpdateRefreshState_proj _ _ _).1, (gUpdateRefreshState_proj _ _ _).2.2.2.2.1]
    refine ⟨?_, trivial, min_le_right _ _, trivial⟩
    rcases hpa : cfg.pixelAlign with _ | _
    · simp [hpa]
    · simp [hpa, jsRound_idem]
  · simp only [if_neg hth, gUpdateRefreshState_state,
      (gUpdateRefreshState_proj _ _ _).1, (gUpdateRefreshState_proj _ _ _).2.2.2.2.1]
    refine ⟨?_, trivial, min_le_right _ _, trivial⟩
    rcases hpa : cfg.pixelAlign with _ | _
    · simp [hpa]
    · simp [hpa, jsRound_idem]

/-- **C6 witness**: scenario D parameters (threshold 100, max offset 150,
damping 0.5), content held 100 px past the top, raw delta −30: the resistance
is `1 − (100/150)·0.5 = 2/3`, so the applied delta is −20, the offset
accumulates to 120 (clamped below 150) and the state is `READY`. -/
theorem C6_witness :
    (onMove cfgPull pullState 0 (-30)).pos = -120 ∧
    (onMove cfgPull pullState 0 (-30)).pullOffset = 120 ∧
    (onMove cfgPull pullState 0 (-30)).pullOffset ≤ 150 ∧
    (onMove cfgPull pullState 0 (-30)).refreshState = RefreshState.READY := by
  obtain ⟨h1, h2, h3, h4⟩ := C6_onMove_pull_resistance cfgPull pullState 0 (-30)
    rfl rfl rfl (by norm_num [cfgPull, pullState])
  refine ⟨?_, ?_, ?_, ?_⟩
  · rw [h1]
    norm_num [cfgPull, pullState, pullResistance, pullOver]
  · rw [h2]
    norm_num [cfgPull, pullState, pullResistance, pullOver]
  · simpa [cfgPull] using h3
  · rw [h4, if_pos]
    norm_num [cfgPull, pullState, pullResistance, pullOver]

theorem gUpdateRefreshState_velSamples (st : GState) (s : RefreshState) (off : ℚ) :
    (gUpdateRefreshState st s off).velSamples = st.velSamples :=
  (gUpdateRefreshState_proj st s off).2.2.2.1

theorem gUpdateRefreshState_loadMoreState (st : GState) (s : RefreshState) (off : ℚ) :
    (gUpdateRefreshState st s off).loadMoreState = st.loadMoreState :=
  (gUpdateRefreshState_proj st s off).2.2.2.2.2.2.1

theorem gUpdateLoadMoreState_velSamples (st : GState) (s : LoadMoreState) (off : ℚ) :
    (gUpdateLoadMoreState st s off).velSamples = st.velSamples :=
  (gUpdateLoadMoreState_proj st s off).2.2.2.1

theorem velAccumGo_spec (samples : List (ℚ × ℚ)) :
    ∀ i, 1 ≤ i → i ≤ samples.length → ∀ s0 d0,
      velAccumGo samples i s0 d0 =
        (s0 + ((samples.drop i).map (fun x => x.2)).sum,
         d0 + ((samples.getD (samples.length - 1) (0, 0)).1 -
           (samples.getD (i - 1) (0, 0)).1)) := by
  have H : ∀ n i, samples.length - i ≤ n → 1 ≤ i → i ≤ samples.length → ∀ s0 d0,
      velAccumGo samples i s0 d0 =
        (s0 + ((samples.drop i).map (fun x => x.2)).sum,
         d0 + ((samples.getD (samples.length - 1) (0, 0)).1 -
           (samples.getD (i - 1) (0, 0)).1)) := by
    intro n
    induction n with
    | zero =>
      intro i hfuel h1 h2 s0 d0
      have hi : i = samples.length := by omega
      rw [velAccumGo, if_neg (by omega)]
      subst hi
      rw [List.drop_length]
      simp
    | succ n ih =>
      intro i hfuel h1 h2 s0 d0
      rcases eq_or_lt_of_le h2 with he | hlt
      · rw [velAccumGo, if_neg (by omega)]
        subst he
        rw [List.drop_length]
        simp
      · rw [velAccumGo, if_pos hlt]
        rw [ih (i + 1) (by omega) (by omega) (by omega)]
        have hdrop : samples.drop i = samples.getD i (0, 0) :: samples.drop (i + 1) := by
          rw [List.getD_eq_getElem _ _ hlt, List.getElem_cons_drop]
        rw [hdrop]
        simp only [List.map_cons, List.sum_cons, Nat.add_sub_cancel, Prod.mk.injEq]
        constructor
        · ring
        · ring
  exact fun i h1 h2 s0 d0 => H (samples.length - i) i (le_refl _) h1 h2 s0 d0

theorem velFormula_eq (cfg : GConfig) (samples : List (ℚ × ℚ)) :
    (if 2 ≤ samples.length then
      let sampleCount := min samples.length 5
      let startIndex := samples.length - sampleCount
      let acc := velAccumGo samples (startIndex + 1) 0 0
      if 1 / 1000 < acc.2 then
        clampQ (acc.1 / acc.2) (-cfg.maxVelocity) cfg.maxVelocity
      else
        clampQ ((samples.getD (samples.length - 1) (0, 0)).2 * 60)
          (-cfg.maxVelocity) cfg.maxVelocity
     else if samples.length = 1 then
      clampQ ((samples.getD 0 (0, 0)).2 * 60) (-cfg.maxVelocity) cfg.maxVelocity
     else 0) =
    (if 2 ≤ samples.length then
      (if 1 / 1000 <
          (samples.getD (samples.length - 1) (0, 0)).1 -
            (samples.getD (samples.length - min samples.length 5) (0, 0)).1 then
        clampQ
          (((samples.drop (samples.length - min samples.length 5 + 1)).map
              (fun s => s.2)).sum /
            ((samples.getD (samples.length - 1) (0, 0)).1 -
              (samples.getD (samples.length - min samples.length 5) (0, 0)).1))
          (-cfg.maxVelocity) cfg.maxVelocity
       else
        clampQ ((samples.getD (samples.length - 1) (0, 0)).2 * 60)
          (-cfg.maxVelocity) cfg.maxVelocity)
     else if samples.length = 1 then
      clampQ ((samples.getD 0 (0, 0)).2 * 60) (-cfg.maxVelocity) cfg.maxVelocity
     else 0) := by
  by_cases hn : 2 ≤ samples.length
  · rw [if_pos hn, if_pos hn]
    dsimp only
    rw [velAccumGo_spec samples (samples.length - min samples.length 5 + 1)
      (by omega) (by omega) 0 0]
    simp only [Nat.add_sub_cancel, zero_add]
  · rw [if_neg hn, if_neg hn]

theorem onUp_velocity_formula (cfg : GConfig) (st : GState)
    (htouch : st.isTouching = true)
    (hnr : ¬ (st.refreshState = RefreshState.READY ∧ st.isRefreshing = false))
    (hnl : ¬ (st.loadMoreState = LoadMoreState.READY ∧ st.isLoadingMore = false)) :
    (onUp cfg st).velocity =
      (if 2 ≤ st.velSamples.length then
        (if 1 / 1000 <
            (st.velSamples.getD (st.velSamples.length - 1) (0, 0)).1 -
              (st.velSamples.getD (st.velSamples.length - min st.velSamples.length 5)
                (0, 0)).1 then
          clampQ
            (((st.velSamples.drop (st.velSamples.length - min st.velSamples.length 5 + 1)).map
                (fun s => s.2)).sum /
              ((st.velSamples.getD (st.velSamples.length - 1) (0, 0)).1 -
                (st.velSamples.getD (st.velSamples.length - min st.velSamples.length 5)
                  (0, 0)).1))
            (-cfg.maxVelocity) cfg.maxVelocity
         else
          clampQ ((st.velSamples.getD (st.velSamples.length - 1) (0, 0)).2 * 60)
            (-cfg.maxVelocity) cfg.maxVelocity)
       else if st.velSamples.length = 1 then
        clampQ ((st.velSamples.getD 0 (0, 0)).2 * 60) (-cfg.maxVelocity) cfg.maxVelocity
       else 0) := by
  unfold onUp
  rw [if_pos htouch]
  dsimp only
  rw [if_neg hnr, if_neg hnl]
  by_cases hr : st.refreshState = RefreshState.REFRESHING
  · have hr2 : ¬ (st.refreshState ≠ RefreshState.REFRESHING) := fun hne => hne hr
    rw [if_neg hr2]
    dsimp only
    by_cases hl : st.loadMoreState = LoadMoreState.LOADING
    · have hl2 : ¬ (st.loadMoreState ≠ LoadMoreState.LOADING) := fun hne => hne hl
      rw [if_neg hl2]
      dsimp only
      exact velFormula_eq cfg st.velSamples
    · have hl2 : st.loadMoreState ≠ LoadMoreState.LOADING := hl
      rw [if_pos hl2]
      simp only [gUpdateLoadMoreState_velSamples]
      exact velFormula_eq cfg st.velSamples
  · have hr2 : st.refreshState ≠ RefreshState.REFRESHING := hr
    rw [if_pos hr2]
    simp only [gUpdateRefreshState_loadMoreState]
    by_cases hl : st.loadMoreState = LoadMoreState.LOADING
    · have hl2 : ¬ (st.loadMoreState ≠ LoadMoreState.LOADING) := fun hne => hne hl
      rw [if_neg hl2]
      simp only [gUpdateRefreshState_velSamples]
      exact velFormula_eq cfg st.velSamples
    · have hl2 : st.loadMoreState ≠ LoadMoreState.LOADING := hl
      rw [if_pos hl2]
      simp only [gUpdateLoadMoreState_velSamples, gUpdateRefreshState_velSamples]
      exact velFormula_eq cfg st.velSamples

/-- **C7** (amended: the averaged numerator sums the deltas of the most
recent `min(n,5) − 1` samples — all samples of the window except its first,
whose timestamp only anchors the elapsed time — and the fallback also fires
at exactly 1 ms).  On drag release with no refresh/load-more trigger
consuming the gesture, `_onUp` assigns velocity = (sum of the deltas of the
most recent `min(n,5) − 1` samples) / (elapsed time spanned by the most
recent `min(n,5)` samples), clamped to `[-maxVelocity, maxVelocity]`; if
there are fewer than 2 samples or the elapsed time is `≤ 1 ms`, it falls back
to the last sample's delta × 60 (clamped), and to 0 with no samples. -/
theorem C7_onUp_velocity (cfg : GConfig) (st : GState)
    (htouch : st.isTouching = true)
    (hnr : ¬ (st.refreshState = RefreshState.READY ∧ st.isRefreshing = false))
    (hnl : ¬ (st.loadMoreState = LoadMoreState.READY ∧ st.isLoadingMore = false)) :
    (onUp cfg st).velocity =
      (if 2 ≤ st.velSamples.length then
        (if 1 / 1000 <
            (st.velSamples.getD (st.velSamples.length - 1) (0, 0)).1 -
              (st.velSamples.getD (st.velSamples.length - min st.velSamples.length 5)
                (0, 0)).1 then
          clampQ
            (((st.velSamples.drop (st.velSamples.length - min st.velSamples.length 5 + 1)).map
                (fun s => s.2)).sum /
              ((st.velSamples.getD (st.velSamples.length - 1) (0, 0)).1 -
                (st.velSamples.getD (st.velSamples.length - min st.velSamples.length 5)
                  (0, 0)).1))
            (-cfg.maxVelocity) cfg.maxVelocity
         else
          clampQ ((st.velSamples.getD (st.velSamples.length - 1) (0, 0)).2 * 60)
            (-cfg.maxVelocity) cfg.maxVelocity)
       else if st.velSamples.length = 1 then
        clampQ ((st.velSamples.getD 0 (0, 0)).2 * 60) (-cfg.maxVelocity) cfg.maxVelocity
       else 0) :=
  onUp_velocity_formula cfg st htouch hnr hnl

/-- **C7 counterexample**: two samples `(t=0, δ=10)` and `(t=10ms, δ=20)`.
`_onUp` assigns `20 / 0.01 = 2000` (only the last delta is summed; the first
sample's delta is dropped and its timestamp only anchors the elapsed time),
while the claimed "sum of the deltas over the most recent (at most 5)
samples divided by their summed elapsed time" is `(10+20)/0.01 = 3000`. -/
theorem C7_counterexample :
    (onUp cfgPull velState).velocity = 2000 ∧
    ((velState.velSamples.map (fun s => s.2)).sum /
        ((velState.velSamples.getD 1 (0, 0)).1 -
          (velState.velSamples.getD 0 (0, 0)).1) = 3000) ∧
    (2000 : ℚ) ≠ 3000 := by
  refine ⟨?_, by norm_num [velState, pullState], by norm_num⟩
  have h := onUp_velocity_formula cfgPull velState rfl
    (by intro hc; exact absurd hc.1 (by decide)) (by intro hc; exact absurd hc.1 (by decide))
  rw [h]
  norm_num [velState, pullState, cfgPull, clampQ]

/-- **C7 witness**: the amended theorem applied to the two-sample state:
the release velocity is the last delta over the 10 ms span, clamped —
`20 / 0.01 = 2000`. -/
theorem C7_witness : (onUp cfgPull velState).velocity = 2000 := by
  have h := C7_onUp_velocity cfgPull velState rfl
    (by intro hc; exact absurd hc.1 (by decide)) (by intro hc; exact absurd hc.1 (by decide))
  rw [h]
  norm_num [velState, pullState, cfgPull, clampQ]

theorem gUpdateRefreshState_hasMore (st : GState) (s : RefreshState) (off : ℚ) :
    (gUpdateRefreshState st s off).hasMore = st.hasMore :=
  (gUpdateRefreshState_proj st s off).2.2.2.2.2.2.2.1

theorem gUpdateRefreshState_isLoadingMore (st : GState) (s : RefreshState) (off : ℚ) :
    (gUpdateRefreshState st s off).isLoadingMore = st.isLoadingMore :=
  (gUpdateRefreshState_proj st s off).2.2.2.2.2.2.2.2.2.1

theorem gUpdateLoadMoreState_hasMore (st : GState) (s : LoadMoreState) (off : ℚ) :
    (gUpdateLoadMoreState st s off).hasMore = st.hasMore :=
  (gUpdateLoadMoreState_proj st s off).2.2.2.2.2.2.2.1

theorem gUpdateLoadMoreState_isLoadingMore (st : GState) (s : LoadMoreState) (off : ℚ) :
    (gUpdateLoadMoreState st s off).isLoadingMore = st.isLoadingMore :=
  (gUpdateLoadMoreState_proj st s off).2.2.2.2.2.2.2.2.2.1

theorem gUpdateLoadMoreState_loadOffset (st : GState) (s : LoadMoreState) (off : ℚ) :
    (gUpdateLoadMoreState st s off).loadOffset = st.loadOffset :=
  (gUpdateLoadMoreState_proj st s off).2.2.2.2.2.1

theorem onMove_preserves_noMore (cfg : GConfig) (st : GState) (t delta : ℚ)
    (h : st.hasMore = false) :
    (onMove cfg st t delta).loadMoreState = st.loadMoreState ∧
    (onMove cfg st t delta).hasMore = st.hasMore ∧
    (onMove cfg st t delta).isLoadingMore = st.isLoadingMore := by
  unfold onMove
  by_cases ht : st.isTouching = true
  · rw [if_pos ht]
    have hload : ¬ (cfg.enableLoadMore = true ∧ st.isLoadingMore = false ∧
        st.hasMore = true ∧
        (if cfg.isVertical = true
         then max st.boundsMin st.boundsMax ≤ st.pos ∧ 0 < delta
         else st.pos ≤ min st.boundsMin st.boundsMax ∧ delta < 0)) := by
      intro hc
      rw [h] at hc
      exact absurd hc.2.2.1 (by decide)
    dsimp only
    rw [if_neg hload]
    split_ifs <;>
      simp [setContentMainPos, gUpdateRefreshState_loadMoreState,
        gUpdateRefreshState_hasMore, gUpdateRefreshState_isLoadingMore]
  · rw [if_neg ht]
    exact ⟨rfl, rfl, rfl⟩

theorem updateTick_preserves (cfg : GConfig) (st : GState) (dt : ℚ) (expv : ℚ → ℚ) :
    (updateTick cfg st dt expv).loadMoreState = st.loadMoreState ∧
    (updateTick cfg st dt expv).hasMore = st.hasMore ∧
    (updateTick cfg st dt expv).isLoadingMore = st.isLoadingMore := by
  unfold updateTick setContentMainPos
  by_cases h0 : st.isTouching = true ∨ st.scrollTweenActive = true
  · rw [if_pos h0]
    exact ⟨rfl, rfl, rfl⟩
  · rw [if_neg h0]
    dsimp only
    refine ⟨?_, ?_, ?_⟩
    · rw [apply_ite GState.loadMoreState]
      dsimp only
      exact ite_self _
    · rw [apply_ite GState.hasMore]
      dsimp only
      exact ite_self _
    · rw [apply_ite GState.isLoadingMore]
      dsimp only
      exact ite_self _

theorem finishRefresh_preserves (st : GState) (b : Bool) :
    (finishRefresh st b).loadMoreState = st.loadMoreState ∧
    (finishRefresh st b).hasMore = st.hasMore ∧
    (finishRefresh st b).isLoadingMore = st.isLoadingMore := by
  unfold finishRefresh
  split_ifs <;>
    simp [gUpdateRefreshState_loadMoreState, gUpdateRefreshState_hasMore,
      gUpdateRefreshState_isLoadingMore]

theorem fireRefreshReset_preserves (st : GState) :
    (fireRefreshReset st).loadMoreState = st.loadMoreState ∧
    (fireRefreshReset st).hasMore = st.hasMore ∧
    (fireRefreshReset st).isLoadingMore = st.isLoadingMore := by
  unfold fireRefreshReset
  split_ifs <;>
    simp [gUpdateRefreshState_loadMoreState, gUpdateRefreshState_hasMore,
      gUpdateRefreshState_isLoadingMore]

theorem fireLoadMoreReset_preserves_noMore (st : GState)
    (h : st.loadMoreState = LoadMoreState.NO_MORE) :
    (fireLoadMoreReset st).loadMoreState = st.loadMoreState ∧
    (fireLoadMoreReset st).hasMore = st.hasMore ∧
    (fireLoadMoreReset st).isLoadingMore = st.isLoadingMore := by
  unfold fireLoadMoreReset
  split_ifs with h1 h2
  · rw [h] at h2
    exact absurd h2 (by decide)
  · exact ⟨rfl, rfl, rfl⟩
  · exact ⟨rfl, rfl, rfl⟩

theorem applyOp_preserves_noMore (cfg : GConfig) (expv : ℚ → ℚ) (st : GState)
    (op : GOp) (h : noMoreInv st) : noMoreInv (applyOp cfg expv st op) := by
  obtain ⟨h1, h2, h3⟩ := h
  cases op with
  | down => exact ⟨h1, h2, h3⟩
  | move t delta =>
    obtain ⟨p1, p2, p3⟩ := onMove_preserves_noMore cfg st t delta h2
    exact ⟨by rw [applyOp, p1]; exact h1, by rw [applyOp, p2]; exact h2,
      by rw [applyOp, p3]; exact h3⟩
  | tick dt =>
    obtain ⟨p1, p2, p3⟩ := updateTick_preserves cfg st dt expv
    exact ⟨by rw [applyOp, p1]; exact h1, by rw [applyOp, p2]; exact h2,
      by rw [applyOp, p3]; exact h3⟩
  | finishR b =>
    obtain ⟨p1, p2, p3⟩ := finishRefresh_preserves st b
    exact ⟨by rw [applyOp, p1]; exact h1, by rw [applyOp, p2]; exact h2,
      by rw [applyOp, p3]; exact h3⟩
  | finishLM b =>
    rw [show applyOp cfg expv st (GOp.finishLM b) = finishLoadMore st b from rfl,
      finishLoadMore_noop st b h3]
    exact ⟨h1, h2, h3⟩
  | fireR =>
    obtain ⟨p1, p2, p3⟩ := fireRefreshReset_preserves st
    exact ⟨by rw [applyOp, p1]; exact h1, by rw [applyOp, p2]; exact h2,
      by rw [applyOp, p3]; exact h3⟩
  | fireLM =>
    obtain ⟨p1, p2, p3⟩ := fireLoadMoreReset_preserves_noMore st h1
    exact ⟨by rw [applyOp, p1]; exact h1, by rw [applyOp, p2]; exact h2,
      by rw [applyOp, p3]; exact h3⟩

theorem runOps_preserves_noMore (cfg : GConfig) (expv : ℚ → ℚ) :
    ∀ (ops : List GOp) (st : GState), noMoreInv st →
      noMoreInv (runOps cfg expv st ops) := by
  intro ops
  induction ops with
  | nil => intro st h; exact h
  | cons op rest ih =>
    intro st h
    rw [runOps]
    exact ih _ (applyOp_preserves_noMore cfg expv st op h)

/-- **C8** (amended: the sticky `NO_MORE` survives touch-downs, drag-moves,
ticks, finish calls and scheduled auto-resets — but a touch *release*
(`_onUp`) outside an active load resets the state to `IDLE`, see the
counterexample; `_hasMore` stays false throughout, so `PULLING`/`READY`
remain blocked until `resetLoadMoreState()`).  `finishLoadMore(false)` from
`LOADING` transitions to `NO_MORE` with offset 0 and clears `_hasMore`; the
state then remains `NO_MORE` under every touch-down, drag-move, tick, finish
call and scheduled auto-reset; `resetLoadMoreState()` restores `_hasMore`
and returns the state to `IDLE`. -/
theorem C8_sticky_noMore (cfg : GConfig) (expv : ℚ → ℚ) (st : GState)
    (hload : st.isLoadingMore = true) :
    noMoreInv (finishLoadMore st false) ∧
    (finishLoadMore st false).loadOffset = 0 ∧
    (∀ ops : List GOp, noMoreInv (runOps cfg expv (finishLoadMore st false) ops)) ∧
    (∀ u : GState, noMoreInv u →
      (resetLoadMoreState u).hasMore = true ∧
      (resetLoadMoreState u).isLoadingMore = false ∧
      (resetLoadMoreState u).loadMoreState = LoadMoreState.IDLE) := by
  have hne : ¬ (st.isLoadingMore = false) := by
    rw [hload]
    decide
  have hen : noMoreInv (finishLoadMore st false) ∧
      (finishLoadMore st false).loadOffset = 0 := by
    unfold finishLoadMore
    rw [if_neg hne, if_pos rfl]
    refine ⟨⟨gUpdateLoadMoreState_state _ _ _, ?_, ?_⟩, ?_⟩
    · rw [gUpdateLoadMoreState_hasMore]
    · rw [gUpdateLoadMoreState_isLoadingMore]
    · rw [gUpdateLoadMoreState_loadOffset]
  refine ⟨hen.1, hen.2, ?_, ?_⟩
  · intro ops
    exact runOps_preserves_noMore cfg expv ops _ hen.1
  · intro u hu
    unfold resetLoadMoreState
    refine ⟨?_, ?_, gUpdateLoadMoreState_state _ _ _⟩
    · rw [gUpdateLoadMoreState_hasMore]
    · rw [gUpdateLoadMoreState_isLoadingMore]

/-- **C8 counterexample**: after `finishLoadMore(false)` puts the widget in
`NO_MORE`, a plain touch-down followed by a release (`_onUp`) resets the
load-more state to `IDLE` — the state does not remain `NO_MORE` under every
drag until `resetLoadMoreState()` (only the `_hasMore` gate persists). -/
theorem C8_counterexample :
    (finishLoadMore loadingState false).loadMoreState = LoadMoreState.NO_MORE ∧
    (onUp cfgPull (onDown (finishLoadMore loadingState false))).loadMoreState =
      LoadMoreState.IDLE ∧
    LoadMoreState.IDLE ≠ LoadMoreState.NO_MORE := by
  refine ⟨rfl, ?_, by decide⟩
  rfl

/-- **C8 witness**: the amended theorem applied to the `LOADING` sample
state: after `finishLoadMore(false)` the sticky configuration holds and
survives a touch-down, a drag-move, a tick, further finish calls and the
scheduled auto-resets. -/
theorem C8_witness :
    noMoreInv (finishLoadMore loadingState false) ∧
    noMoreInv (runOps cfgPull (fun _ => 1) (finishLoadMore loadingState false)
      [GOp.down, GOp.move 0 5, GOp.tick 1, GOp.finishLM true, GOp.fireLM,
       GOp.finishR true, GOp.fireR]) := by
  have h := C8_sticky_noMore cfgPull (fun _ => 1) loadingState rfl
  exact ⟨h.1, h.2.2.1 _⟩

theorem rebuildPrefixSumFrom_itemSizes (st : DynState) (k : ℕ) :
    (rebuildPrefixSumFrom st k).itemSizes = st.itemSizes := by
  unfold rebuildPrefixSumFrom
  by_cases h : k = 0
  · rw [if_pos h]; rfl
  · rw [if_neg h]

theorem rebuildPrefixSumFrom_totalCount (st : DynState) (k : ℕ) :
    (rebuildPrefixSumFrom st k).totalCount = st.totalCount := by
  unfold rebuildPrefixSumFrom
  by_cases h : k = 0
  · rw [if_pos h]; rfl
  · rw [if_neg h]

theorem updateItemHeightRec_noop (hfn : ℕ → ℚ) (g : ℕ) (r : DynState) (i : ℕ)
    (x : ℚ) (h : r.itemSizes.getD i 0 = x) :
    updateItemHeightRec hfn g r i x = (r, false) := by
  rw [updateItemHeightRec]
  by_cases h0 : g = 0
  · rw [dif_pos h0]
  · rw [dif_neg h0]
    by_cases h1 : r.totalCount ≤ i
    · rw [if_pos h1]
    · rw [if_neg h1, if_pos h]

theorem updateItemHeightRec_changes (hfn : ℕ → ℚ) (g : ℕ) (r : DynState) (i : ℕ)
    (x : ℚ) (h0 : g ≠ 0) (h1 : ¬ r.totalCount ≤ i)
    (h2 : r.itemSizes.getD i 0 ≠ x) :
    (updateItemHeightRec hfn g r i x).2 = true := by
  rw [updateItemHeightRec, dif_neg h0, if_neg h1, if_neg h2]

theorem layoutSingleSlotDyn_consistent (hfn : ℕ → ℚ) (fuel : ℕ) (st : DynState)
    (idx slot : ℕ) (h : st.itemSizes.getD idx 0 = hfn idx) :
    layoutSingleSlotDyn hfn fuel st idx slot =
      { st with slotStates := st.slotStates.set slot (SlotState.bound idx) } := by
  rw [layoutSingleSlotDyn]
  exact if_pos h

theorem layoutSlotsGo_consistent (hfn : ℕ → ℚ) (fuel firstIndex : ℕ) :
    ∀ (rem s : ℕ) (st : DynState),
      (∀ j, j < st.totalCount → st.itemSizes.getD j 0 = hfn j) →
      (layoutSlotsGo hfn fuel firstIndex s rem st).itemSizes = st.itemSizes ∧
      (layoutSlotsGo hfn fuel firstIndex s rem st).totalCount = st.totalCount := by
  intro rem
  induction rem with
  | zero =>
    intro s st hcons
    rw [layoutSlotsGo, dif_pos rfl]
    exact ⟨rfl, rfl⟩
  | succ n ih =>
    intro s st hcons
    rw [layoutSlotsGo, dif_neg (Nat.succ_ne_zero n)]
    by_cases hle : st.totalCount ≤ firstIndex + s
    · rw [if_pos hle]
      have h := ih (s + 1)
        { st with slotStates := st.slotStates.set s SlotState.inactive } hcons
      simpa using h
    · rw [if_neg hle]
      rw [layoutSingleSlotDyn_consistent hfn fuel st _ s
        (hcons _ (not_le.mp hle))]
      have h := ih (s + 1)
        { st with slotStates :=
            st.slotStates.set s (SlotState.bound (firstIndex + s)) } hcons
      simpa using h

theorem updateVisibleDynRec_consistent (hfn : ℕ → ℚ) (fuel : ℕ) (st : DynState)
    (hcons : ∀ j, j < st.totalCount → st.itemSizes.getD j 0 = hfn j) :
    (updateVisibleDynRec hfn fuel st).itemSizes = st.itemSizes ∧
    (updateVisibleDynRec hfn fuel st).totalCount = st.totalCount := by
  rw [updateVisibleDynRec]
  exact layoutSlotsGo_consistent hfn fuel _ st.slots 0 _ hcons

theorem layoutSlotsGo_step_bind (hfn : ℕ → ℚ) (fuel fi s r : ℕ) (st st2 : DynState)
    (hlt : ¬ st.totalCount ≤ fi + s)
    (hok : st.itemSizes.getD (fi + s) 0 = hfn (fi + s))
    (hst2 : { st with slotStates :=
      st.slotStates.set s (SlotState.bound (fi + s)) } = st2) :
    layoutSlotsGo hfn fuel fi s (r + 1) st =
      layoutSlotsGo hfn fuel fi (s + 1) r st2 := by
  rw [layoutSlotsGo, dif_neg (Nat.succ_ne_zero r), if_neg hlt,
    layoutSingleSlotDyn_consistent hfn fuel st (fi + s) s hok, hst2]
  simp

theorem layoutSlotsGo_step_update (hfn : ℕ → ℚ) (fuel fi s r : ℕ) (st st2 : DynState)
    (hlt : ¬ st.totalCount ≤ fi + s)
    (hne : st.itemSizes.getD (fi + s) 0 ≠ hfn (fi + s))
    (hst2 : { st with slotStates :=
      st.slotStates.set s (SlotState.bound (fi + s)) } = st2) :
    layoutSlotsGo hfn fuel fi s (r + 1) st =
      layoutSlotsGo hfn fuel fi (s + 1) r
        (updateItemHeightRec hfn fuel st2 (fi + s) (hfn (fi + s))).1 := by
  rw [layoutSlotsGo, dif_neg (Nat.succ_ne_zero r), if_neg hlt]
  rw [layoutSingleSlotDyn]
  dsimp only
  rw [if_neg hne, hst2]
  simp

/-- **C9**: idempotence of `updateItemHeight` in dynamic-size mode, amended.
Because `_layoutSingleSlot`'s reconciliation pass recursively re-updates any
laid-out item whose stored size disagrees with the height callback, the
double call is idempotent when the written size agrees with the callback at
the updated index and every other item's stored size already matches its
callback value: then (for every fuel) the second call observes the stored
size equal to `x` and returns the state completely unchanged with no
rebuild, the first call rebuilds exactly when the stored size differed from
`x`, and is itself a complete no-op when it did not. -/
theorem C9_updateItemHeight_idempotent (hfn : ℕ → ℚ) (f g : ℕ) (st : DynState)
    (i : ℕ) (x : ℚ) (hi : i < st.totalCount)
    (hlen : st.itemSizes.length = st.totalCount) (hx : hfn i = x)
    (hcons : ∀ j, j < st.totalCount → j ≠ i → st.itemSizes.getD j 0 = hfn j) :
    updateItemHeightRec hfn g (updateItemHeightRec hfn (f + 1) st i x).1 i x =
      ((updateItemHeightRec hfn (f + 1) st i x).1, false) ∧
    (st.itemSizes.getD i 0 ≠ x →
      (updateItemHeightRec hfn (f + 1) st i x).2 = true) ∧
    (st.itemSizes.getD i 0 = x →
      updateItemHeightRec hfn (f + 1) st i x = (st, false)) := by
  have hni : ¬ st.totalCount ≤ i := not_le.mpr hi
  by_cases heq : st.itemSizes.getD i 0 = x
  · have h1 : updateItemHeightRec hfn (f + 1) st i x = (st, false) :=
      updateItemHeightRec_noop hfn (f + 1) st i x heq
    refine ⟨?_, fun hne => absurd heq hne, fun _ => h1⟩
    rw [h1]
    exact updateItemHeightRec_noop hfn g st i x heq
  · have h1 : updateItemHeightRec hfn (f + 1) st i x =
        (updateVisibleDynRec hfn f
          (rebuildPrefixSumFrom
            { st with itemSizes := st.itemSizes.set i x } i), true) := by
      rw [updateItemHeightRec, dif_neg (Nat.succ_ne_zero f), if_neg hni,
        if_neg heq]
      simp
    have hcons2 : ∀ j,
        j < (rebuildPrefixSumFrom
          { st with itemSizes := st.itemSizes.set i x } i).totalCount →
        (rebuildPrefixSumFrom
          { st with itemSizes := st.itemSizes.set i x } i).itemSizes.getD j 0 =
          hfn j := by
      intro j hj
      rw [rebuildPrefixSumFrom_totalCount] at hj
      rw [rebuildPrefixSumFrom_itemSizes]
      by_cases hji : j = i
      · subst hji
        rw [getD_set_self _ _ (by rw [hlen]; exact hi)]
        exact hx.symm
      · rw [getD_set_ne _ _ _ (fun hc => hji hc.symm)]
        exact hcons j hj hji
    have hpres := updateVisibleDynRec_consistent hfn f
      (rebuildPrefixSumFrom
        { st with itemSizes := st.itemSizes.set i x } i) hcons2
    have hsz : (updateItemHeightRec hfn (f + 1) st i x).1.itemSizes.getD i 0 = x := by
      rw [h1]
      dsimp only
      rw [hpres.1, rebuildPrefixSumFrom_itemSizes]
      exact getD_set_self _ _ (by rw [hlen]; exact hi) _ _
    refine ⟨updateItemHeightRec_noop hfn g _ i x hsz, fun _ => by rw [h1],
      fun hc => absurd hc heq⟩

/-- **C9 witness**: the amended theorem applied to the sample state (three
stored sizes of 50) at index 1 with new size 80, under the callback that
returns 80 at index 1 and 50 elsewhere: the first call rebuilds and the
reconciliation pass finds no mismatch; the second call returns the state
unchanged with no rebuild. -/
theorem C9_witness :
    updateItemHeightRec hfnSample 7
        (updateItemHeightRec hfnSample 4 dynSample 1 80).1 1 80 =
      ((updateItemHeightRec hfnSample 4 dynSample 1 80).1, false) ∧
    (updateItemHeightRec hfnSample 4 dynSample 1 80).2 = true := by
  have h := C9_updateItemHeight_idempotent hfnSample 3 7 dynSample 1 80
    (by norm_num [dynSample]) (by norm_num [dynSample])
    (by norm_num [hfnSample])
    (by
      intro j hj hne
      have hj3 : j < 3 := by simpa [dynSample] using hj
      interval_cases j
      · norm_num [dynSample, hfnSample]
      · exact absurd rfl hne
      · norm_num [dynSample, hfnSample])
  exact ⟨h.1, h.2.1 (by norm_num [dynSample])⟩

/-- **C9 counterexample**: under a height callback returning 50 everywhere,
`updateItemHeight(1, 80)` on the sample state (stored sizes all 50) is not
idempotent: the first call's own relayout reconciles the freshly written 80
against the callback's 50 and recursively reverts it, so the second call
observes a stored size different from 80 and triggers another full
rebuild-and-relayout instead of returning unchanged. -/
theorem C9_counterexample :
    (updateItemHeightRec hfn50 9 dynSample 1 80).1.itemSizes.getD 1 0 = 50 ∧
    (updateItemHeightRec hfn50 9 dynSample 1 80).1.itemSizes.getD 1 0 ≠ 80 ∧
    (updateItemHeightRec hfn50 9
      (updateItemHeightRec hfn50 9 dynSample 1 80).1 1 80).2 = true := by
  have hA : updateItemHeightRec hfn50 9 dynSample 1 80 =
      (updateVisibleDynRec hfn50 8
        { dynSample with itemSizes := [50, 80, 50], prefixPositions := [0, 50, 130], contentSize := 180, contentNodeSize := 180, boundsMax := 100 }, true) := by
    rw [updateItemHeightRec]
    norm_num [dynSample, rebuildPrefixSumFrom, buildPrefixAux]
  have hC : updateVisibleDynRec hfn50 8
      { dynSample with itemSizes := [50, 80, 50], prefixPositions := [0, 50, 130], contentSize := 180, contentNodeSize := 180, boundsMax := 100 } =
      layoutSlotsGo hfn50 8 0 0 3
        { dynSample with itemSizes := [50, 80, 50], prefixPositions := [0, 50, 130], contentSize := 180, contentNodeSize := 180, boundsMax := 100 } := by
    rw [updateVisibleDynRec]
    norm_num [dynSample, calcVisibleRange, posToFirstIndex, clampQ]
  have hD : layoutSlotsGo hfn50 8 0 0 3
      { dynSample with itemSizes := [50, 80, 50], prefixPositions := [0, 50, 130], contentSize := 180, contentNodeSize := 180, boundsMax := 100 } =
      layoutSlotsGo hfn50 8 0 2 1
        (updateItemHeightRec hfn50 8
          { dynSample with itemSizes := [50, 80, 50], prefixPositions := [0, 50, 130], contentSize := 180, contentNodeSize := 180, boundsMax := 100 } 1 50).1 := by
    calc (layoutSlotsGo hfn50 8 0 0 3
          { dynSample with itemSizes := [50, 80, 50], prefixPositions := [0, 50, 130], contentSize := 180, contentNodeSize := 180, boundsMax := 100 })
        = (layoutSlotsGo hfn50 8 0 1 2
          { dynSample with itemSizes := [50, 80, 50], prefixPositions := [0, 50, 130], contentSize := 180, contentNodeSize := 180, boundsMax := 100 }) :=
          layoutSlotsGo_step_bind hfn50 8 0 0 2 _ _ (by norm_num [dynSample])
            (by norm_num [dynSample, hfn50]) (by norm_num [dynSample])
      _ = (layoutSlotsGo hfn50 8 0 2 1
          (updateItemHeightRec hfn50 8
            { dynSample with itemSizes := [50, 80, 50], prefixPositions := [0, 50, 130], contentSize := 180, contentNodeSize := 180, boundsMax := 100 } 1 50).1) :=
          layoutSlotsGo_step_update hfn50 8 0 1 1 _ _ (by norm_num [dynSample])
            (by norm_num [dynSample, hfn50]) (by norm_num [dynSample])
  have hE : updateItemHeightRec hfn50 8
      { dynSample with itemSizes := [50, 80, 50], prefixPositions := [0, 50, 130], contentSize := 180, contentNodeSize := 180, boundsMax := 100 } 1 50 =
      (updateVisibleDynRec hfn50 7 dynSample, true) := by
    rw [updateItemHeightRec]
    norm_num [dynSample, rebuildPrefixSumFrom, buildPrefixAux]
  have hcons0 : ∀ j, j < dynSample.totalCount →
      dynSample.itemSizes.getD j 0 = hfn50 j := by
    intro j hj
    have hj3 : j < 3 := by simpa [dynSample] using hj
    interval_cases j <;> norm_num [dynSample, hfn50]
  have hF := updateVisibleDynRec_consistent hfn50 7 dynSample hcons0
  have hconsY : ∀ j, j < (updateVisibleDynRec hfn50 7 dynSample).totalCount →
      (updateVisibleDynRec hfn50 7 dynSample).itemSizes.getD j 0 = hfn50 j := by
    intro j hj
    rw [hF.2] at hj
    rw [hF.1]
    exact hcons0 j hj
  have hG := layoutSlotsGo_consistent hfn50 8 0 1 2
    (updateVisibleDynRec hfn50 7 dynSample) hconsY
  have hrun : (updateItemHeightRec hfn50 9 dynSample 1 80).1.itemSizes.getD 1 0 = 50 ∧
      (updateItemHeightRec hfn50 9 dynSample 1 80).1.totalCount = 3 := by
    rw [hA]
    dsimp only
    rw [hC, hD, hE]
    dsimp only
    rw [hG.1, hG.2, hF.1, hF.2]
    norm_num [dynSample]
  refine ⟨hrun.1, by rw [hrun.1]; norm_num, ?_⟩
  apply updateItemHeightRec_changes
  · norm_num
  · rw [hrun.2]; norm_num
  · rw [hrun.1]; norm_num

end VScroll
